import Mathlib

/-!
Verification of the undo/redo engine of the Leo editor (`leo/core/leoUndo.py`)
and of two entry points of its printing subsystem (`leo/core/leoPrinting.py`).

The Python code is shallowly embedded: the mutable `undoer` object becomes an
explicit `UndoState` record threaded through pure functions, Python lists
become `List`, Python slice and index arithmetic (which clamps and accepts
negative indices) is reproduced by the `py*` helpers below, and the dynamic
`g.Bunch` records that form the undo beads become the `Bead` type whose
optional `kind` attribute models `hasattr(bunch, 'kind')`.
-/

namespace LeoUndo

/-! ### Python list primitives

`pyNorm len i` is the index normalisation Python applies to a slice bound:
negative indices count from the end, and out-of-range bounds clamp. -/

def pyNorm (len : Nat) (i : Int) : Nat :=
  if i < 0 then ((len : Int) + i).toNat else min i.toNat len

/-- Python `l[i:]`. -/
def pyDrop (l : List α) (i : Int) : List α := l.drop (pyNorm l.length i)

/-- Python `l[:i]`. -/
def pyTake (l : List α) (i : Int) : List α := l.take (pyNorm l.length i)

/-- Python `l[i]`, as an `Option` (Python raises `IndexError` out of range;
a negative index counts from the end). -/
def pyGet (l : List α) (i : Int) : Option α :=
  if i < 0 then
    if (l.length : Int) + i < 0 then none else l.get? ((l.length : Int) + i).toNat
  else l.get? i.toNat

/-- Python `l[i] = a` (a no-op when the index is invalid; the sites where we
use it are guarded so that the index is always valid). -/
def pySet (l : List α) (i : Int) (a : α) : List α :=
  if i < 0 then
    if (l.length : Int) + i < 0 then l else l.set ((l.length : Int) + i).toNat a
  else l.set i.toNat a

/-! ### String helpers used by the undo engine -/

/-- Python `string.split(s, '\n')`: split on newline characters (the empty
string yields `[""]`), written as structural recursion over the character
list so that it evaluates by kernel reduction. -/
def splitNlAux : List Char → List Char → List String
  | [], acc => [String.mk acc.reverse]
  | ch :: cs, acc =>
    if ch = '\n' then String.mk acc.reverse :: splitNlAux cs []
    else splitNlAux cs (ch :: acc)

def pySplitNl (s : String) : List String := splitNlAux s.data []

/-- Number of trailing `'\n'` characters of `s` (the `while ... == '\n'` loops
in `setUndoTypingParams` and `undoRedoText`). -/
def countTrailingNewlines (s : String) : Nat :=
  (s.data.reverse.takeWhile (fun c => c = '\n')).length

/-- Remove all trailing `'\n'` characters (the stripping loop in
`undoRedoText`). -/
def dropTrailingNewlines (s : String) : String :=
  String.mk (s.data.reverse.dropWhile (fun c => c = '\n')).reverse

/-! ### undoRedoText (`leoUndo.py`, `undoRedoText`)

The body-reconstruction step for typing beads, as a pure function of the
present body text and the stored diff data.  The direction is chosen by the
caller: `undoTyping` passes the old middle lines / old newline count,
`redoTyping` passes the new ones (both through the `oldMidLines` /
`oldNewlines` parameters of `undoRedoText`, whose `newMidLines` /
`newNewlines` parameters are unused in the source). -/

def undoRedoText (body : String) (leading trailing : Nat)
    (oldMidLines : List String) (oldNewlines : Nat) : String :=
  let body_lines := pySplitNl body
  let s1 := if leading > 0 then body_lines.take leading else []
  let s2 := if oldMidLines.length > 0 then oldMidLines else []
  let s3 := if trailing > 0 then pyDrop body_lines (-(trailing : Int)) else []
  let s := String.intercalate "\n" (s1 ++ s2 ++ s3)
  let s := dropTrailingNewlines s
  if oldNewlines > 0 then s ++ String.mk (List.replicate oldNewlines '\n') else s

/-- The reconstruction formula exactly as the specification words it:
`body[0:leading] + targetMiddle + body[len(body)-trailing:]`, joined with
`'\n'`, trailing newlines stripped, then `targetNewlines` newlines appended. -/
def undoRedoTextSpec (body : String) (leading trailing : Nat)
    (targetMiddle : List String) (targetNewlines : Nat) : String :=
  let bl := pySplitNl body
  let r := bl.take leading ++ targetMiddle ++ bl.drop (bl.length - trailing)
  dropTrailingNewlines (String.intercalate "\n" r)
    ++ String.mk (List.replicate targetNewlines '\n')

/-! ### Beads

A bead is a `g.Bunch`: a dynamic record.  `BeadCore` carries the scalar
attributes the claims are about; `kind : Option String` models
`hasattr(bunch, 'kind')` (bunches made by `createCommonBunch` have no `kind`
until an `afterX` entry sets one).  `pv` stands for the identity of the
position's vnode (`p.v`); the typing fields mirror the ones stored by
`setUndoTypingParams`.  A `Bead` additionally carries the `items` list that
group beads accumulate. -/

structure BeadCore where
  kind : Option String := none
  undoType : String := ""
  pv : Nat := 0
  leading : Nat := 0
  trailing : Nat := 0
  oldMiddleLines : List String := []
  newMiddleLines : List String := []
  oldNewlines : Nat := 0
  newNewlines : Nat := 0
  deriving Repr, DecidableEq

inductive Bead : Type where
  | mk (core : BeadCore) (items : List Bead) : Bead
  deriving Repr

def Bead.core : Bead → BeadCore
  | .mk c _ => c

def Bead.items : Bead → List Bead
  | .mk _ i => i

def Bead.kind (b : Bead) : Option String := b.core.kind

def Bead.undoType (b : Bead) : String := b.core.undoType

mutual

def Bead.decEq : (a b : Bead) → Decidable (a = b)
  | .mk c1 i1, .mk c2 i2 =>
    if h : c1 = c2 then
      match Bead.decEqList i1 i2 with
      | isTrue h2 => isTrue (by rw [h, h2])
      | isFalse h2 => isFalse (fun he => h2 (by cases he; rfl))
    else isFalse (fun he => h (by cases he; rfl))

def Bead.decEqList : (a b : List Bead) → Decidable (a = b)
  | [], [] => isTrue rfl
  | [], _ :: _ => isFalse (by simp)
  | _ :: _, [] => isFalse (by simp)
  | x :: xs, y :: ys =>
    match Bead.decEq x y, Bead.decEqList xs ys with
    | isTrue h1, isTrue h2 => isTrue (by rw [h1, h2])
    | isFalse h1, _ => isFalse (fun he => h1 (by cases he; rfl))
    | _, isFalse h2 => isFalse (fun he => h2 (by cases he; rfl))

end

instance : DecidableEq Bead := Bead.decEq

/-- The body rewrite performed by `undoTyping`: it calls `undoRedoText` with
the bead's `leading`/`trailing` and its old middle lines and old
trailing-newline count (the new ones are passed only for symmetry and are
unused). -/
def undoTypingBody (d : BeadCore) (body : String) : String :=
  undoRedoText body d.leading d.trailing d.oldMiddleLines d.oldNewlines

/-- The body rewrite performed by `redoTyping`: `undoRedoText` with the
bead's new middle lines and new trailing-newline count. -/
def redoTypingBody (d : BeadCore) (body : String) : String :=
  undoRedoText body d.leading d.trailing d.newMiddleLines d.newNewlines

/-! ### The undoer state

The mutable ivars of class `undoer` that the claims talk about.  `bead` is an
`Int` because the cursor legitimately takes the value `-1` ("undo disabled").
`unitTesting` models `g.app.unitTesting`, read by `cutStack`. -/

structure UndoState where
  beads : List Bead := []
  bead : Int := -1
  undoMenuLabel : String := "Can't Undo"
  redoMenuLabel : String := "Can't Redo"
  undoType : String := "Can't Undo"
  undoing : Bool := false
  redoing : Bool := false
  granularity : String := "line"
  max_undo_stack_size : Nat := 0
  unitTesting : Bool := false
  deriving Repr, DecidableEq

/-! ### Menu-label protocol (`redoMenuName`, `undoMenuName`, `setRedoType`,
`setUndoType`, `setUndoTypes`) -/

def redoMenuName (name : String) : String :=
  if name = "Can't Redo" then name else "Redo " ++ name

def undoMenuName (name : String) : String :=
  if name = "Can't Undo" then name else "Undo " ++ name

/-- `setRedoType`: updates the redo menu label (the menu-widget calls are
external side effects with no bearing on the engine state). -/
def setRedoType (s : UndoState) (theType : String) : UndoState :=
  let name := redoMenuName theType
  if name ≠ s.redoMenuLabel then { s with redoMenuLabel := name } else s

/-- `setUndoType`: updates `undoType` and the undo menu label. -/
def setUndoType (s : UndoState) (theType : String) : UndoState :=
  let name := undoMenuName theType
  if name ≠ s.undoMenuLabel then
    { s with undoType := theType, undoMenuLabel := name }
  else s

/-- `peekBead`: `None` when `n < 0 or n >= len(u.beads)`, else `u.beads[n]`. -/
def peekBead (s : UndoState) (n : Int) : Option Bead :=
  if n < 0 ∨ (s.beads.length : Int) ≤ n then none else s.beads.get? n.toNat

/-- `getBead`: same range check as `peekBead`; on success the source also
copies the bunch's attributes into the undoer's transient ivars
(`setIvarsFromBunch`), which are not part of this state. -/
def getBead (s : UndoState) (n : Int) : Option Bead :=
  if n < 0 ∨ (s.beads.length : Int) ≤ n then none else s.beads.get? n.toNat

/-- `cutStack`: truncate the stack to the last `max_undo_stack_size` beads,
unless the bound is 0, the cursor is below the bound, a unit test is running,
or any bead on the stack is an open `beforeGroup`. -/
def cutStack (s : UndoState) : UndoState :=
  let n := s.max_undo_stack_size
  if 0 < n ∧ (n : Int) ≤ s.bead ∧ s.unitTesting = false then
    if s.beads.any (fun b => b.kind = some "beforeGroup") then s
    else { s with beads := pyDrop s.beads (-(n : Int)), bead := (n : Int) - 1 }
  else s

/-- The stack-and-cursor effect of `cutStack`, as a function of the four
fields it reads (a proof-side restatement; `cutStack` itself is the
embedding of the source). -/
def cutStackFields (l : List Bead) (n : Int) (m : Nat) (ut : Bool) :
    List Bead × Int :=
  if 0 < m ∧ (m : Int) ≤ n ∧ ut = false then
    if l.any (fun b => b.kind = some "beforeGroup") then (l, n)
    else (pyDrop l (-(m : Int)), (m : Int) - 1)
  else (l, n)

/-- `setUndoTypes`: recompute both menu labels from `beads[bead]` and
`beads[bead+1]`, then call `cutStack`. -/
def setUndoTypes (s : UndoState) : UndoState :=
  let s1 := match peekBead s s.bead with
    | some bunch => setUndoType s bunch.undoType
    | none => setUndoType s "Can't Undo"
  let s2 := match peekBead s1 (s1.bead + 1) with
    | some bunch => setRedoType s1 bunch.undoType
    | none => setRedoType s1 "Can't Redo"
  cutStack s2

/-- `pushBead`: if `beads[bead]` is an open `beforeGroup`, append the bunch to
the group's `items`; otherwise advance the cursor, overwrite the forward
history with the bunch (`u.beads[u.bead:] = [bunch]`) and recompute the menu
labels. -/
def pushBead (s : UndoState) (bunch : Bead) : UndoState :=
  let bunch2 := if 0 ≤ s.bead ∧ s.bead < (s.beads.length : Int)
    then pyGet s.beads s.bead else none
  match bunch2 with
  | some b2 =>
    if b2.kind = some "beforeGroup" then
      { s with beads :=
          pySet s.beads s.bead (Bead.mk b2.core (b2.items ++ [bunch])) }
    else
      setUndoTypes { s with bead := s.bead + 1,
                            beads := pyTake s.beads (s.bead + 1) ++ [bunch] }
  | none =>
      setUndoTypes { s with bead := s.bead + 1,
                            beads := pyTake s.beads (s.bead + 1) ++ [bunch] }

/-- `clearUndoState`: reset the labels, drop every bead, disable undo
(`clearIvars` only clears transient ivars, which this state does not carry). -/
def clearUndoState (s : UndoState) : UndoState :=
  let s1 := setRedoType s "Can't Redo"
  let s2 := setUndoType s1 "Can't Undo"
  { s2 with beads := [], bead := -1 }

/-! ### Derived views of the state used to phrase the label protocol -/

/-- The undo-label half of `setUndoTypes`. -/
def setUndoHalf (s : UndoState) : UndoState :=
  match peekBead s s.bead with
  | some bunch => setUndoType s bunch.undoType
  | none => setUndoType s "Can't Undo"

/-- The redo-label half of `setUndoTypes`. -/
def setRedoHalf (s : UndoState) : UndoState :=
  match peekBead s (s.bead + 1) with
  | some bunch => setRedoType s bunch.undoType
  | none => setRedoType s "Can't Redo"

/-- The label-setting first half of `setUndoTypes` (everything before the
`cutStack` call); `setUndoTypes s = cutStack (setLabels s)` definitionally. -/
def setLabels (s : UndoState) : UndoState :=
  setRedoHalf (setUndoHalf s)

/-- The bead a stack holds at cursor value `n` (the guard of `peekBead`, as a
function of the list alone). -/
def beadAt (l : List Bead) (n : Int) : Option Bead :=
  if n < 0 ∨ (l.length : Int) ≤ n then none else l.get? n.toNat

/-- The undo menu label a stack and cursor call for. -/
def undoLabelOf (l : List Bead) (n : Int) : String :=
  match beadAt l n with
  | some bunch => undoMenuName bunch.undoType
  | none => "Can't Undo"

/-- The redo menu label a stack and cursor call for. -/
def redoLabelOf (l : List Bead) (n : Int) : String :=
  match beadAt l (n + 1) with
  | some bunch => redoMenuName bunch.undoType
  | none => "Can't Redo"

/-- The two menu labels reflect the `undoType` of `beads[bead]` and
`beads[bead + 1]` (reading "Can't Undo" / "Can't Redo" when the bead does not
exist). -/
def labelsReflect (s : UndoState) : Prop :=
  s.undoMenuLabel = undoLabelOf s.beads s.bead
    ∧ s.redoMenuLabel = redoLabelOf s.beads s.bead

/-! ### before* / after* entry points needed by the claims -/

/-- `beforeChangeGroup`: pushes an open `beforeGroup` bead directly
(`u.bead += 1; u.beads[u.bead:] = [bunch]`).  Note: the source has no
`u.redoing or u.undoing` guard here and does not call `setUndoTypes`. -/
def beforeChangeGroup (s : UndoState) (command : String) : UndoState :=
  let bunch := Bead.mk { kind := some "beforeGroup", undoType := command } []
  { s with bead := s.bead + 1,
           beads := pyTake s.beads (s.bead + 1) ++ [bunch] }

/-- `afterChangeGroup`: guarded by the replay flags; flips `beads[bead]` to
`afterGroup` in place (it logs when the kind was not `beforeGroup` but sets
`'afterGroup'` unconditionally), installs the group helpers, records the new
selection, and recomputes the labels.  The `if 0:` second push in the source
is dead code.  When `u.beads[u.bead]` does not exist Python raises before any
mutation, which the embedding renders as returning the state unchanged. -/
def afterChangeGroup (s : UndoState) (undoType : String) : UndoState :=
  if s.redoing = true ∨ s.undoing = true then s
  else
    match pyGet s.beads s.bead with
    | none => s
    | some bunch =>
        let bunch' := Bead.mk
          { bunch.core with kind := some "afterGroup", undoType := undoType }
          bunch.items
        setUndoTypes { s with beads := pySet s.beads s.bead bunch' }

/-- `afterChangeNodeContents`: guarded by the replay flags; completes the
bunch (kind `'node'`, the command as `undoType`, the helpers and the new
head/body/selection snapshots) and pushes it. -/
def afterChangeNodeContents (s : UndoState) (command : String) (bunch : Bead) :
    UndoState :=
  if s.redoing = true ∨ s.undoing = true then s
  else
    pushBead s
      (Bead.mk { bunch.core with kind := some "node", undoType := command }
        bunch.items)

/-- `afterChangeTree`: guarded by the replay flags; completes the bunch
(kind `'tree'`, the command as `undoType`, the helpers and the new
selection/text/tree snapshots, payload outside this embedding) and pushes
it. -/
def afterChangeTree (s : UndoState) (command : String) (bunch : Bead) :
    UndoState :=
  if s.redoing = true ∨ s.undoing = true then s
  else
    pushBead s
      (Bead.mk { bunch.core with kind := some "tree", undoType := command }
        bunch.items)

/-- `afterClearRecentFiles`: note the source has no `u.redoing or u.undoing`
guard; it always completes the bunch (`undoType = 'Clear Recent Files'`, the
helpers and the new recent-files list; no `kind` is set) and pushes it (the
source also returns the bunch). -/
def afterClearRecentFiles (s : UndoState) (bunch : Bead) : UndoState :=
  pushBead s
    (Bead.mk { bunch.core with undoType := "Clear Recent Files" } bunch.items)

/-- `afterCloneNode`: guarded by the replay flags; completes the bunch (kind
`'clone'`, the command, the helpers and the position/status snapshots) and
pushes it. -/
def afterCloneNode (s : UndoState) (command : String) (bunch : Bead) :
    UndoState :=
  if s.redoing = true ∨ s.undoing = true then s
  else
    pushBead s
      (Bead.mk { bunch.core with kind := some "clone", undoType := command }
        bunch.items)

/-- `afterDehoist`: guarded by the replay flags; builds its own common bunch
with kind `'dehoist'` and pushes it. -/
def afterDehoist (s : UndoState) (command : String) : UndoState :=
  if s.redoing = true ∨ s.undoing = true then s
  else pushBead s (Bead.mk { kind := some "dehoist", undoType := command } [])

/-- `afterDeleteNode`: guarded by the replay flags; completes the bunch
(kind `'delete'`) and pushes it. -/
def afterDeleteNode (s : UndoState) (command : String) (bunch : Bead) :
    UndoState :=
  if s.redoing = true ∨ s.undoing = true then s
  else
    pushBead s
      (Bead.mk { bunch.core with kind := some "delete", undoType := command }
        bunch.items)

/-- `afterHoist`: guarded by the replay flags; builds its own common bunch
with kind `'hoist'` and pushes it. -/
def afterHoist (s : UndoState) (command : String) : UndoState :=
  if s.redoing = true ∨ s.undoing = true then s
  else pushBead s (Bead.mk { kind := some "hoist", undoType := command } [])

/-- `afterInsertNode`: guarded by the replay flags; completes the bunch
(kind `'insert'`, plus the paste-as-clone `afterTree` payload, outside this
embedding) and pushes it. -/
def afterInsertNode (s : UndoState) (command : String) (bunch : Bead) :
    UndoState :=
  if s.redoing = true ∨ s.undoing = true then s
  else
    pushBead s
      (Bead.mk { bunch.core with kind := some "insert", undoType := command }
        bunch.items)

/-- `afterMark`: guarded by the replay flags; sets only the helpers and the
new status snapshots (the kind `'mark'` and the `undoType` were already set
by `beforeMark`) and pushes the bunch unchanged. -/
def afterMark (s : UndoState) (bunch : Bead) : UndoState :=
  if s.redoing = true ∨ s.undoing = true then s
  else pushBead s bunch

/-- `afterMoveNode`: guarded by the replay flags; completes the bunch (kind
`'move'`, the command, the new child index and parent) and pushes it. -/
def afterMoveNode (s : UndoState) (command : String) (bunch : Bead) :
    UndoState :=
  if s.redoing = true ∨ s.undoing = true then s
  else
    pushBead s
      (Bead.mk { bunch.core with kind := some "move", undoType := command }
        bunch.items)

/-- `afterSort`: guarded by the replay flags; only records the dirty list on
the bunch that `beforeSort` already pushed, and recomputes the menu labels. -/
def afterSort (s : UndoState) : UndoState :=
  if s.redoing = true ∨ s.undoing = true then s
  else setUndoTypes s

/-- `beforeSort`: builds a completed sort bunch and pushes it directly
(`u.bead += 1; u.beads[u.bead:] = [bunch]`).  Note: the source has no replay
guard here and does not call `setUndoTypes`. -/
def beforeSort (s : UndoState) (undoType : String) : UndoState :=
  let bunch := Bead.mk { kind := some "sort", undoType := undoType } []
  { s with bead := s.bead + 1,
           beads := pyTake s.beads (s.bead + 1) ++ [bunch] }

/-- `afterPromote`: note the source has no `u.redoing or u.undoing` guard; it
always pushes directly and recomputes the labels. -/
def afterPromote (s : UndoState) : UndoState :=
  let bunch := Bead.mk { kind := some "promote", undoType := "Promote" } []
  setUndoTypes { s with bead := s.bead + 1,
                        beads := pyTake s.beads (s.bead + 1) ++ [bunch] }

/-- `afterDemote`: note the source has no `u.redoing or u.undoing` guard; it
always pushes directly and recomputes the labels. -/
def afterDemote (s : UndoState) : UndoState :=
  let bunch := Bead.mk { kind := some "demote", undoType := "Demote" } []
  setUndoTypes { s with bead := s.bead + 1,
                        beads := pyTake s.beads (s.bead + 1) ++ [bunch] }

/-! ### Typing coalescing (`setUndoTypingParams` and helpers) -/

/-- `g.splitLines` (`s.splitlines(True)` for `'\n'`-separated editor text):
split into lines, keeping the line terminators. -/
def splitLinesAux : List Char → List Char → List (List Char)
  | [], acc => if acc.isEmpty then [] else [acc.reverse]
  | c :: cs, acc =>
    if c = '\n' then (acc.reverse ++ ['\n']) :: splitLinesAux cs []
    else splitLinesAux cs (c :: acc)

def splitLines (s : String) : List String :=
  (splitLinesAux s.data []).map String.mk

/-- A Tk text index `"row.col"`, already parsed into its numeric parts (rows
are 1-based, columns 0-based). -/
def TkIndex := Nat × Nat
  deriving DecidableEq, Repr

/-- A selection range: a pair of Tk indices. -/
def Sel := TkIndex × TkIndex
  deriving DecidableEq, Repr

/-- The signature of `recognizeStartOfTypingWord`: a pluggable predicate over
`(old_lines, old_row, old_col, old_ch, new_lines, new_row, new_col, new_ch)`. -/
def Recog := List String → Nat → Nat → Char → List String → Nat → Nat → Char → Bool

/-- The default `recognizeStartOfTypingWord`:
`not old_ch.isspace() and new_ch.isspace()`. -/
def recognizeStartOfTypingWord : Recog :=
  fun _old_lines _old_row _old_col old_ch _new_lines _new_row _new_col new_ch =>
    !old_ch.isWhitespace && new_ch.isWhitespace

/-- The data computed by the `<< compute leading, middle & trailing lines >>`
section of `setUndoTypingParams`. -/
structure TypingInfo where
  leading : Nat
  trailing : Nat
  oldMiddleLines : List String
  newMiddleLines : List String
  oldNewlines : Nat
  newNewlines : Nat
  deriving Repr, DecidableEq

/-- Length of the longest common line prefix; the `while i < min_len` loop. -/
def commonPrefixLen : List String → List String → Nat
  | a :: as, b :: bs => if a = b then commonPrefixLen as bs + 1 else 0
  | _, _ => 0

/-- `<< compute leading, middle & trailing lines >>`: `leading` is the common
line-prefix length, `trailing` the common line-suffix length bounded by
`min_len - leading` (and 0 when the new text is a prefix of the old), the
middles are the unmatched slices, and the newline counts are the number of
trailing `'\n'` characters of each raw string. -/
def computeTypingInfo (oldText newText : String) : TypingInfo :=
  let old_lines := pySplitNl oldText
  let new_lines := pySplitNl newText
  let old_len := old_lines.length
  let new_len := new_lines.length
  let min_len := min old_len new_len
  let leading := commonPrefixLen old_lines new_lines
  let trailing :=
    if leading = new_len then 0
    else min (commonPrefixLen old_lines.reverse new_lines.reverse)
             (min_len - leading)
  let oldMid := if trailing = 0 then old_lines.drop leading
                else pyDrop (pyTake old_lines (-(trailing : Int))) leading
  let newMid := if trailing = 0 then new_lines.drop leading
                else pyDrop (pyTake new_lines (-(trailing : Int))) leading
  { leading := leading, trailing := trailing,
    oldMiddleLines := oldMid, newMiddleLines := newMid,
    oldNewlines := countTrailingNewlines oldText,
    newNewlines := countTrailingNewlines newText }

/-- `<< set newBead if the change does not continue a word >>`: the extra
check run at `'word'` granularity once the previous bead is known to be
shareable.  The enclosing `try/except` turns any indexing failure into
`newBead = True`, which the embedding renders through the explicit range
checks.  Both selections must be collapsed, on the same row, one column
apart; a change at column 0 (a just-inserted line break) continues the bead
without consulting the predicate. -/
def wordContinuationCheck (oldSel newSel : Sel) (oldText newText : String)
    (recog : Recog) : Bool :=
  let (old_start, old_end) := oldSel
  let (new_start, new_end) := newSel
  if old_start ≠ old_end ∨ new_start ≠ new_end then true
  else
    let (old_row, old_col) := old_start
    let (new_row, new_col) := new_start
    let old_lines := splitLines oldText
    let new_lines := splitLines newText
    if old_row ≠ new_row ∨ ((old_col : Int) - (new_col : Int)).natAbs ≠ 1 then
      true
    else if old_col = 0 ∨ new_col = 0 then false
    else
      match old_lines.get? (old_row - 1), new_lines.get? (new_row - 1) with
      | some old_s, some new_s =>
        if old_s.length ≤ old_col - 1 ∨ new_s.length ≤ new_col - 1 then true
        else
          recog old_lines old_row old_col (old_s.data.getD (old_col - 1) ' ')
                new_lines new_row new_col (new_s.data.getD (new_col - 1) ' ')
      | _, _ => true

/-- `<< set newBead if we can't share the previous bead >>`: decide whether a
fresh bead must be pushed (`true`) or the previous typing bead extended
(`false`). -/
def newBeadDecision (granularity : String) (old_d : Option Bead) (pv : Nat)
    (undo_type : String) (leading trailing : Nat)
    (oldSel newSel : Sel) (oldText newText : String) (recog : Recog) : Bool :=
  match old_d with
  | none => true
  | some d =>
    if d.core.pv ≠ pv ∨ d.kind ≠ some "typing" ∨ d.undoType ≠ "Typing"
        ∨ undo_type ≠ "Typing" then true
    else if granularity = "char" then true
    else if granularity = "node" then false
    else
      let nb := decide (d.core.leading ≠ leading ∨ d.core.trailing ≠ trailing)
      if granularity = "word" && !nb then
        wordContinuationCheck oldSel newSel oldText newText recog
      else nb

/-- `setUndoTypingParams`: the full state transition, returning the state and
the returned bunch (`None` on the early exits).  On the extend path the source
mutates the previous bunch in place (it aliases `u.beads[u.bead]`, or the open
group's last item); the embedding writes the updated bead back.  The
selection/scroll snapshots (`oldSel`, `newSel`, `yview`) and
`dirtyVnodeList` are stored on the bunch in the source but play no role in
the claims, and `u.oldText`/`u.newText` are `None` with `debug` off. -/
def setUndoTypingParams (s : UndoState) (recog : Recog) (pv : Nat)
    (undo_type : Option String) (oldText newText : String)
    (oldSel newSel : Sel) : UndoState × Option Bead :=
  if s.redoing = true ∨ s.undoing = true then (s, none)
  else
    match undo_type with
    | none => (s, none)
    | some ut =>
      if ut = "Can't Undo" then
        (setUndoTypes (clearUndoState s), none)
      else if oldText = newText then
        (setUndoTypes s, none)
      else
        let s := { s with undoType := ut }
        let info := computeTypingInfo oldText newText
        let old_d := peekBead s s.bead
        let nb := newBeadDecision s.granularity old_d pv ut
          info.leading info.trailing oldSel newSel oldText newText recog
        if nb then
          let bunch := Bead.mk
            { kind := some "typing", undoType := ut, pv := pv,
              leading := info.leading, trailing := info.trailing,
              oldMiddleLines := info.oldMiddleLines,
              newMiddleLines := info.newMiddleLines,
              oldNewlines := info.oldNewlines,
              newNewlines := info.newNewlines } []
          (pushBead s bunch, some bunch)
        else
          match old_d with
          | some d =>
            let d' := Bead.mk
              { d.core with
                  leading := info.leading, trailing := info.trailing,
                  newNewlines := info.newNewlines,
                  newMiddleLines := info.newMiddleLines } d.items
            ({ s with beads := pySet s.beads s.bead d' }, some d')
          | none => (s, none)

/-! ### undo / redo -/

def canRedo (s : UndoState) : Bool := s.redoMenuLabel ≠ "Can't Redo"

def canUndo (s : UndoState) : Bool := s.undoMenuLabel ≠ "Can't Undo"

/-- `undo`: guard on `canUndo`, on `getBead(u.bead)` and on the existence of a
current position; then set `undoing`, run the bead's undo helper inside
`try`, and in the `finally` block clear `undoing`, decrement the cursor and
recompute the labels.  The helper is a parameter `UndoState → UndoState × Bool`
whose boolean records whether it raised; mirroring Python's `try/finally`, the
`finally` steps are applied to the helper's output state in either case, and
the exception (if any) is propagated in the boolean of the result.  The
editor-widget calls in the `finally` block (`updateEditors`,
`setCurrentPosition`, `setChanged`, `endUpdate`, `recolor_now`,
`bodyWantsFocusNow`) are external side effects. -/
def undoRun (helper : UndoState → UndoState × Bool) (hasCurrentPosition : Bool)
    (s : UndoState) : UndoState × Bool :=
  if canUndo s = false then (s, false)
  else
    match getBead s s.bead with
    | none => (s, false)
    | some _ =>
      if hasCurrentPosition = false then (s, false)
      else
        let s1 := { s with undoing := true }
        let r := helper s1
        (setUndoTypes { r.1 with undoing := false, bead := r.1.bead - 1 }, r.2)

/-- `redo`: symmetric to `undo`, looking up `getBead(u.bead + 1)`, setting
`redoing`, and incrementing the cursor in the `finally` block. -/
def redoRun (helper : UndoState → UndoState × Bool) (hasCurrentPosition : Bool)
    (s : UndoState) : UndoState × Bool :=
  if canRedo s = false then (s, false)
  else
    match getBead s (s.bead + 1) with
    | none => (s, false)
    | some _ =>
      if hasCurrentPosition = false then (s, false)
      else
        let s1 := { s with redoing := true }
        let r := helper s1
        (setUndoTypes { r.1 with redoing := false, bead := r.1.bead + 1 }, r.2)

/-! ### Concrete fixtures used by counterexamples and witnesses -/

/-- A fresh undoer (the state right after `clearUndoState`). -/
def initialState : UndoState := {}

/-- A state snapshot taken while an undo is being replayed. -/
def replayingState : UndoState := { undoing := true }

/-- A completed non-group bead of kind `'node'`. -/
def nodeBead (t : String) : Bead :=
  Bead.mk { kind := some "node", undoType := t } []

/-- A previous typing bead on the node with vnode identity 7 (its `leading`
and `trailing` are 0, matching a one-line edit). -/
def typingBead : Bead :=
  Bead.mk { kind := some "typing", undoType := "Typing", pv := 7,
            oldMiddleLines := ["x"], newMiddleLines := ["y"] } []

/-- A `'word'`-granularity state whose top bead is `typingBead`. -/
def wordState : UndoState :=
  { beads := [typingBead], bead := 0, granularity := "word",
    undoMenuLabel := "Undo Typing" }

/-- A full stack of three node beads under a bound of three. -/
def fullState : UndoState :=
  { beads := [nodeBead "A", nodeBead "B", nodeBead "C"], bead := 2,
    undoMenuLabel := "Undo C", max_undo_stack_size := 3 }

/-- A state with a single node bead and no stack bound. -/
def oneBeadState : UndoState :=
  { beads := [nodeBead "A"], bead := 0, undoMenuLabel := "Undo A" }

/-- A two-bead stack with the cursor between the beads, so that both undo and
redo are enabled. -/
def midState : UndoState :=
  { beads := [nodeBead "A", nodeBead "B"], bead := 0,
    undoMenuLabel := "Undo A", redoMenuLabel := "Redo B" }

/-- A state whose top bead is an open `beforeGroup` group. -/
def groupOpenState : UndoState :=
  { beads := [Bead.mk { kind := some "beforeGroup", undoType := "Replace All" } []],
    bead := 0 }

/-- A helper (bead handler) that raises without touching the state. -/
def raisingHelper : UndoState → UndoState × Bool := fun s => (s, true)

/-- A recogniser that always reports a word boundary; used to show when the
predicate is not consulted. -/
def alwaysSplit : Recog := fun _ _ _ _ _ _ _ _ => true

end LeoUndo

namespace LeoPrinting

/-! ### The printing subsystem (`leo/core/leoPrinting.py`)

Only the data flow into the Qt documents matters for the claims: a document
built by `html_document(s)` renders the string `s`, so each command is
embedded as the text it feeds to `html_document`.  The outline is a forest of
nodes; `c.all_positions()` is the preorder traversal of the whole outline and
`p.self_and_subtree()` the preorder traversal of the selected subtree. -/

structure VNode where
  b : String
  h : String
  marked : Bool
  deriving Repr, DecidableEq

inductive OTree : Type where
  | node (v : VNode) (children : List OTree) : OTree

mutual

def allPositionsTree : OTree → List VNode
  | .node v cs => v :: allPositionsForest cs

def allPositionsForest : List OTree → List VNode
  | [] => []
  | t :: ts => allPositionsTree t ++ allPositionsForest ts

end

/-- A commander, reduced to what the two commands read: the whole outline and
the currently selected position (with its subtree). -/
structure Commander where
  outline : List OTree
  selected : OTree

/-- `pr.getBodies(p)`: `'\n'.join([p.b for p in p.self_and_subtree()])`. -/
def getBodies (p : OTree) : String :=
  String.intercalate "\n" ((allPositionsTree p).map VNode.b)

/-- `print_tree_html`: `nodes = [p.v for p in self.c.all_positions() if
p.isMarked()]; s = '\n'.join([z.b for z in nodes]); html_document(s)`. -/
def print_tree_html_text (c : Commander) : String :=
  String.intercalate "\n"
    (((allPositionsForest c.outline).filter (fun v => v.marked)).map VNode.b)

/-- `preview_tree_html`: `html_document(self.getBodies(self.c.p))`. -/
def preview_tree_html_text (c : Commander) : String :=
  getBodies c.selected

/-- The document text the claim describes: the bodies of the marked nodes of
the outline, joined (this is the spec's reading, to be compared with the two
commands above). -/
def markedBodiesText (positions : List VNode) : String :=
  String.intercalate "\n" ((positions.filter (fun v => v.marked)).map VNode.b)

/-- A marked node and an unmarked node, for the counterexample outline. -/
def markedNode : VNode := { b := "marked body", h := "A", marked := true }

def plainNode : VNode := { b := "plain body", h := "B", marked := false }

/-- An outline with one marked top-level node and one unmarked top-level
node, the unmarked one selected. -/
def cexCommander : Commander :=
  { outline := [.node markedNode [], .node plainNode []],
    selected := .node plainNode [] }

end LeoPrinting

/-! ## Theorems -/

namespace LeoUndo

@[simp] theorem Bead.core_mk (c : BeadCore) (i : List Bead) :
    (Bead.mk c i).core = c := rfl

@[simp] theorem Bead.items_mk (c : BeadCore) (i : List Bead) :
    (Bead.mk c i).items = i := rfl

@[simp] theorem Bead.kind_mk (c : BeadCore) (i : List Bead) :
    (Bead.mk c i).kind = c.kind := rfl

@[simp] theorem Bead.undoType_mk (c : BeadCore) (i : List Bead) :
    (Bead.mk c i).undoType = c.undoType := rfl

theorem setUndoType_eq (s : UndoState) (t : String) :
    setUndoType s t = { s with
      undoType := if undoMenuName t ≠ s.undoMenuLabel then t else s.undoType,
      undoMenuLabel := undoMenuName t } := by
  unfold setUndoType
  rcases eq_or_ne (undoMenuName t) s.undoMenuLabel with h | h <;> simp [h]

theorem setRedoType_eq (s : UndoState) (t : String) :
    setRedoType s t = { s with redoMenuLabel := redoMenuName t } := by
  unfold setRedoType
  rcases eq_or_ne (redoMenuName t) s.redoMenuLabel with h | h <;> simp [h]

theorem peekBead_eq_of_beads {s s' : UndoState} (h : s.beads = s'.beads)
    (n : Int) : peekBead s n = peekBead s' n := by
  unfold peekBead
  rw [h]


theorem peekBead_def (s : UndoState) (n : Int) :
    peekBead s n = beadAt s.beads n := rfl

theorem beadAt_none_of_out (l : List Bead) (n : Int)
    (h : n < 0 ∨ (l.length : Int) ≤ n) : beadAt l n = none := by
  unfold beadAt
  rw [if_pos h]

theorem beadAt_of_range (l : List Bead) (n : Int) (h0 : 0 ≤ n)
    (h1 : n < (l.length : Int)) : beadAt l n = l.get? n.toNat := by
  unfold beadAt
  rw [if_neg (by omega)]

theorem setUndoHalf_eq (s : UndoState) :
    setUndoHalf s = { s with
      undoType := (setUndoHalf s).undoType,
      undoMenuLabel := undoLabelOf s.beads s.bead } := by
  unfold setUndoHalf undoLabelOf
  rw [show beadAt s.beads s.bead = peekBead s s.bead from rfl]
  cases h : peekBead s s.bead <;> simp [setUndoType_eq, undoMenuName]

theorem setRedoHalf_eq (s : UndoState) :
    setRedoHalf s = { s with
      redoMenuLabel := redoLabelOf s.beads s.bead } := by
  unfold setRedoHalf redoLabelOf
  rw [show beadAt s.beads (s.bead + 1) = peekBead s (s.bead + 1) from rfl]
  cases h : peekBead s (s.bead + 1) <;> simp [setRedoType_eq, redoMenuName]

theorem setLabels_eq (s : UndoState) :
    setLabels s = { s with
      undoType := (setUndoHalf s).undoType,
      undoMenuLabel := undoLabelOf s.beads s.bead,
      redoMenuLabel := redoLabelOf s.beads s.bead } := by
  unfold setLabels
  rw [setRedoHalf_eq]
  conv_lhs => rw [setUndoHalf_eq]

theorem setUndoTypes_eq (s : UndoState) :
    setUndoTypes s = cutStack (setLabels s) := rfl

/-- `setLabels` always establishes the label invariant: it writes exactly the
labels computed from the (unchanged) stack and cursor. -/
theorem labelsReflect_setLabels (s : UndoState) : labelsReflect (setLabels s) := by
  rw [setLabels_eq]
  exact ⟨rfl, rfl⟩

theorem pyTake_nonneg (l : List α) (i : Int) (h : 0 ≤ i) :
    pyTake l i = l.take i.toNat := by
  unfold pyTake pyNorm
  rw [if_neg (by omega), List.take_eq_take]
  omega

theorem pyDrop_neg (l : List α) (n : Nat) (h : 0 < n) :
    pyDrop l (-(n : Int)) = l.drop (l.length - n) := by
  unfold pyDrop pyNorm
  rw [if_pos (by omega)]
  congr 1
  omega

theorem pyGet_nonneg (l : List α) (i : Int) (h : 0 ≤ i) :
    pyGet l i = l.get? i.toNat := by
  unfold pyGet
  rw [if_neg (by omega)]

theorem cutStack_of_not (s : UndoState)
    (h : ¬(0 < s.max_undo_stack_size
        ∧ (s.max_undo_stack_size : Int) ≤ s.bead ∧ s.unitTesting = false)) :
    cutStack s = s := by
  simp only [cutStack]
  rw [if_neg h]

theorem cutStack_of_group (s : UndoState)
    (h : s.beads.any (fun b => b.kind = some "beforeGroup") = true) :
    cutStack s = s := by
  simp only [cutStack, h]
  split <;> rfl

theorem cutStack_of_cut (s : UndoState)
    (hc : 0 < s.max_undo_stack_size
        ∧ (s.max_undo_stack_size : Int) ≤ s.bead ∧ s.unitTesting = false)
    (hg : s.beads.any (fun b => b.kind = some "beforeGroup") = false) :
    cutStack s = { s with
      beads := pyDrop s.beads (-(s.max_undo_stack_size : Int)),
      bead := (s.max_undo_stack_size : Int) - 1 } := by
  simp only [cutStack, hg]
  rw [if_pos hc]
  simp

theorem get?_take_append_self (l : List α) (x : α) (k : Nat) (hk : k ≤ l.length) :
    (l.take k ++ [x]).get? k = some x := by
  have h : (l.take k).length = k := by
    rw [List.length_take]
    omega
  calc (l.take k ++ [x]).get? k
      = (l.take k ++ [x]).get? (l.take k).length := by rw [h]
    _ = some x := List.get?_concat_length _ _

/-- Truncation by `cutStack` preserves the label invariant whenever the
cursor sits at the top of the stack, because the kept suffix still ends in
`beads[bead]` and `beads[bead+1]` does not exist on either side. -/
theorem labelsReflect_cutStack_of_top (s : UndoState)
    (htop : s.bead = (s.beads.length : Int) - 1)
    (hr : labelsReflect s) : labelsReflect (cutStack s) := by
  by_cases hc : 0 < s.max_undo_stack_size
      ∧ (s.max_undo_stack_size : Int) ≤ s.bead ∧ s.unitTesting = false
  · by_cases hg : s.beads.any (fun b => b.kind = some "beforeGroup") = true
    · rw [cutStack_of_group s hg]
      exact hr
    · rw [cutStack_of_cut s hc (by simpa using hg)]
      obtain ⟨hn, hbound, -⟩ := hc
      have hlen : s.max_undo_stack_size ≤ s.beads.length := by omega
      have hdrop := pyDrop_neg s.beads s.max_undo_stack_size hn
      have hlen2 : (pyDrop s.beads (-(s.max_undo_stack_size : Int))).length
          = s.max_undo_stack_size := by
        rw [hdrop, List.length_drop]
        omega
      constructor
      · show s.undoMenuLabel
          = undoLabelOf (pyDrop s.beads (-(s.max_undo_stack_size : Int)))
              ((s.max_undo_stack_size : Int) - 1)
        rw [hr.1]
        unfold undoLabelOf
        have hpk : beadAt (pyDrop s.beads (-(s.max_undo_stack_size : Int)))
            ((s.max_undo_stack_size : Int) - 1) = beadAt s.beads s.bead := by
          rw [beadAt_of_range _ _ (by omega) (by rw [hlen2]; omega),
              beadAt_of_range _ _ (by omega) (by omega), hdrop,
              List.get?_drop]
          congr 1
          omega
        rw [hpk]
      · show s.redoMenuLabel
          = redoLabelOf (pyDrop s.beads (-(s.max_undo_stack_size : Int)))
              ((s.max_undo_stack_size : Int) - 1)
        rw [hr.2]
        unfold redoLabelOf
        rw [beadAt_none_of_out s.beads _ (Or.inr (by omega)),
            beadAt_none_of_out _ _ (Or.inr (by rw [hlen2]; omega))]
  · rw [cutStack_of_not s hc]
    exact hr

theorem pyGet_mem {l : List α} {i : Int} {a : α} (h : pyGet l i = some a) :
    a ∈ l := by
  unfold pyGet at h
  split at h
  · split at h
    · exact absurd h (by simp)
    · exact List.get?_mem h
  · exact List.get?_mem h

/-- The stack-extending path of `pushBead`: whenever `beads[bead]` is not an
open `beforeGroup`, the bunch is pushed on top and `setUndoTypes` runs. -/
theorem pushBead_top (s : UndoState) (bunch : Bead)
    (h : ∀ b2, pyGet s.beads s.bead = some b2 → ¬b2.kind = some "beforeGroup") :
    pushBead s bunch = setUndoTypes { s with
      bead := s.bead + 1,
      beads := pyTake s.beads (s.bead + 1) ++ [bunch] } := by
  simp only [pushBead]
  by_cases hc : 0 ≤ s.bead ∧ s.bead < (s.beads.length : Int)
  · rw [if_pos hc]
    cases hg : pyGet s.beads s.bead with
    | none => rfl
    | some b2 => simp [h b2 hg]
  · rw [if_neg hc]

/-- The group-accumulation path of `pushBead`: when `beads[bead]` is an open
`beforeGroup`, the bunch is appended to its `items` and nothing else moves. -/
theorem pushBead_group (s : UndoState) (bunch b2 : Bead)
    (h0 : 0 ≤ s.bead) (h1 : s.bead < (s.beads.length : Int))
    (hg : pyGet s.beads s.bead = some b2)
    (hk : b2.kind = some "beforeGroup") :
    pushBead s bunch = { s with
      beads := pySet s.beads s.bead (Bead.mk b2.core (b2.items ++ [bunch])) } := by
  simp only [pushBead]
  rw [if_pos ⟨h0, h1⟩, hg]
  simp [hk]

theorem labelsReflect_setUndoTypes_of_top (s : UndoState)
    (htop : s.bead = (s.beads.length : Int) - 1) :
    labelsReflect (setUndoTypes s) := by
  rw [setUndoTypes_eq]
  exact labelsReflect_cutStack_of_top _ (by rw [setLabels_eq]; exact htop)
    (labelsReflect_setLabels s)

theorem labelsReflect_setUndoTypes_of_nocut (s : UndoState)
    (h : ¬(0 < s.max_undo_stack_size
        ∧ (s.max_undo_stack_size : Int) ≤ s.bead ∧ s.unitTesting = false)) :
    labelsReflect (setUndoTypes s) := by
  rw [setUndoTypes_eq, setLabels_eq, cutStack_of_not _ (by exact h)]
  exact ⟨rfl, rfl⟩

theorem no_group_any_false {l : List Bead} (h : ∀ b ∈ l, ¬b.kind = some "beforeGroup") :
    l.any (fun b => b.kind = some "beforeGroup") = false := by
  rw [List.any_eq_false]
  intro b hb
  simpa using h b hb

/-- C2: when `max_undo_stack_size = N > 0` and no group is open (no bead on
the stack, nor the pushed one, is a `beforeGroup`), then after every push
through `pushBead` the stack holds at most the last `N` beads and the cursor
is clamped to at most `N - 1` (taking the cursor in its legal range and
`g.app.unitTesting` off, since `cutStack` deliberately does nothing during
unit tests). -/
theorem cutStack_fields (s : UndoState) :
    (cutStack s).beads
        = (cutStackFields s.beads s.bead s.max_undo_stack_size s.unitTesting).1
      ∧ (cutStack s).bead
        = (cutStackFields s.beads s.bead s.max_undo_stack_size s.unitTesting).2 := by
  simp only [cutStack, cutStackFields]
  split_ifs <;> exact ⟨rfl, rfl⟩

theorem setUndoTypes_fields (s : UndoState) :
    (setUndoTypes s).beads
        = (cutStackFields s.beads s.bead s.max_undo_stack_size s.unitTesting).1
      ∧ (setUndoTypes s).bead
        = (cutStackFields s.beads s.bead s.max_undo_stack_size s.unitTesting).2 := by
  rw [setUndoTypes_eq, setLabels_eq]
  exact cutStack_fields _

theorem pushBead_stack_bound (s : UndoState) (bunch : Bead)
    (hN : 0 < s.max_undo_stack_size)
    (hut : s.unitTesting = false)
    (hng : ∀ b ∈ s.beads, ¬b.kind = some "beforeGroup")
    (hbg : ¬bunch.kind = some "beforeGroup")
    (hlo : -1 ≤ s.bead) (hhi : s.bead < (s.beads.length : Int)) :
    (pushBead s bunch).beads.length ≤ s.max_undo_stack_size
      ∧ (pushBead s bunch).bead ≤ (s.max_undo_stack_size : Int) - 1 := by
  have hk : pyTake s.beads (s.bead + 1) = s.beads.take (s.bead + 1).toNat :=
    pyTake_nonneg _ _ (by omega)
  have hle : (s.bead + 1).toNat ≤ s.beads.length := by omega
  have hlen1 : (pyTake s.beads (s.bead + 1) ++ [bunch]).length
      = (s.bead + 1).toNat + 1 := by
    rw [hk, List.length_append, List.length_take]
    simp
    omega
  have hany : (pyTake s.beads (s.bead + 1) ++ [bunch]).any
      (fun b => b.kind = some "beforeGroup") = false := by
    apply no_group_any_false
    intro b hb
    rcases List.mem_append.1 hb with hb | hb
    · exact hng b (List.take_subset _ _ (hk ▸ hb))
    · rw [List.mem_singleton.1 hb]
      exact hbg
  rw [pushBead_top s bunch (fun b2 hb2 => hng b2 (pyGet_mem hb2))]
  have h1 : (setUndoTypes { s with
      bead := s.bead + 1,
      beads := pyTake s.beads (s.bead + 1) ++ [bunch] }).beads
      = (cutStackFields (pyTake s.beads (s.bead + 1) ++ [bunch]) (s.bead + 1)
          s.max_undo_stack_size s.unitTesting).1 :=
    (setUndoTypes_fields _).1
  have h2 : (setUndoTypes { s with
      bead := s.bead + 1,
      beads := pyTake s.beads (s.bead + 1) ++ [bunch] }).bead
      = (cutStackFields (pyTake s.beads (s.bead + 1) ++ [bunch]) (s.bead + 1)
          s.max_undo_stack_size s.unitTesting).2 :=
    (setUndoTypes_fields _).2
  rw [h1, h2]
  unfold cutStackFields
  rw [hany]
  by_cases hcut : (s.max_undo_stack_size : Int) ≤ s.bead + 1
  · rw [if_pos ⟨hN, hcut, hut⟩]
    simp only [Bool.false_eq_true, if_false]
    constructor
    · show (pyDrop (pyTake s.beads (s.bead + 1) ++ [bunch])
        (-(s.max_undo_stack_size : Int))).length ≤ s.max_undo_stack_size
      rw [pyDrop_neg _ _ hN, List.length_drop]
      omega
    · show (s.max_undo_stack_size : Int) - 1 ≤ (s.max_undo_stack_size : Int) - 1
      omega
  · rw [if_neg (fun hcon => hcut hcon.2.1)]
    constructor
    · show (pyTake s.beads (s.bead + 1) ++ [bunch]).length ≤ s.max_undo_stack_size
      rw [hlen1]
      omega
    · show s.bead + 1 ≤ (s.max_undo_stack_size : Int) - 1
      omega

/-- C2 witness: pushing a fourth node bead onto a full three-bead stack with
`max_undo_stack_size = 3` keeps the stack at three beads and the cursor at 2. -/
theorem pushBead_stack_bound_witness :
    (pushBead fullState (nodeBead "D")).beads.length ≤ 3
      ∧ (pushBead fullState (nodeBead "D")).bead ≤ (3 : Int) - 1 :=
  pushBead_stack_bound fullState (nodeBead "D") (by decide) (by decide)
    (by decide) (by decide) (by decide) (by decide)

theorem setUndoTypes_undoing (s : UndoState) :
    (setUndoTypes s).undoing = s.undoing := by
  rw [setUndoTypes_eq, setLabels_eq]
  simp only [cutStack]
  split_ifs <;> rfl

theorem setUndoTypes_redoing (s : UndoState) :
    (setUndoTypes s).redoing = s.redoing := by
  rw [setUndoTypes_eq, setLabels_eq]
  simp only [cutStack]
  split_ifs <;> rfl

theorem cutStackFields_of_nocut (l : List Bead) (n : Int) (m : Nat) (ut : Bool)
    (h : m = 0 ∨ n < (m : Int)) : cutStackFields l n m ut = (l, n) := by
  unfold cutStackFields
  rw [if_neg (by
    rintro ⟨h1, h2, h3⟩
    rcases h with h | h <;> omega)]

/-- The shape `undo` takes once its three guards pass: run the helper, then
the `finally` block. -/
theorem undoRun_run (helper : UndoState → UndoState × Bool) (s : UndoState)
    (b : Bead) (hcu : canUndo s = true) (hgb : getBead s s.bead = some b) :
    undoRun helper true s
      = (setUndoTypes { (helper { s with undoing := true }).1 with
          undoing := false,
          bead := (helper { s with undoing := true }).1.bead - 1 },
        (helper { s with undoing := true }).2) := by
  simp only [undoRun]
  rw [hgb]
  simp [hcu]

/-- The shape `redo` takes once its three guards pass. -/
theorem redoRun_run (helper : UndoState → UndoState × Bool) (s : UndoState)
    (b : Bead) (hcr : canRedo s = true)
    (hgb : getBead s (s.bead + 1) = some b) :
    redoRun helper true s
      = (setUndoTypes { (helper { s with redoing := true }).1 with
          redoing := false,
          bead := (helper { s with redoing := true }).1.bead + 1 },
        (helper { s with redoing := true }).2) := by
  simp only [redoRun]
  rw [hgb]
  simp [hcr]

/-- The observable facts about the `finally` block of `undo`: flags cleared,
cursor moved back by one, labels recomputed, stack untouched — provided the
helper left the stack, the cursor and the configuration alone and the new
cursor is below the truncation bound. -/
theorem finallyUndo_facts (t : UndoState) (sBeads : List Bead) (sBead : Int)
    (m : Nat) (ut : Bool)
    (hpb : t.beads = sBeads) (hpn : t.bead = sBead)
    (hpm : t.max_undo_stack_size = m) (hpu : t.unitTesting = ut)
    (hnocut : m = 0 ∨ sBead - 1 < (m : Int)) :
    (setUndoTypes { t with undoing := false, bead := t.bead - 1 }).undoing = false
      ∧ (setUndoTypes { t with undoing := false, bead := t.bead - 1 }).bead
          = sBead - 1
      ∧ (setUndoTypes { t with undoing := false, bead := t.bead - 1 }).beads
          = sBeads
      ∧ labelsReflect (setUndoTypes { t with undoing := false, bead := t.bead - 1 }) := by
  subst hpb hpn hpm hpu
  have hfcut : cutStackFields t.beads (t.bead - 1) t.max_undo_stack_size
      t.unitTesting = (t.beads, t.bead - 1) :=
    cutStackFields_of_nocut _ _ _ _ hnocut
  refine ⟨?_, ?_, ?_, ?_⟩
  · rw [setUndoTypes_undoing]
  · have hb : (setUndoTypes { t with undoing := false, bead := t.bead - 1 }).bead
        = (cutStackFields t.beads (t.bead - 1) t.max_undo_stack_size
            t.unitTesting).2 := (setUndoTypes_fields _).2
    rw [hb, hfcut]
  · have hb : (setUndoTypes { t with undoing := false, bead := t.bead - 1 }).beads
        = (cutStackFields t.beads (t.bead - 1) t.max_undo_stack_size
            t.unitTesting).1 := (setUndoTypes_fields _).1
    rw [hb, hfcut]
  · apply labelsReflect_setUndoTypes_of_nocut
    show ¬(0 < t.max_undo_stack_size
        ∧ (t.max_undo_stack_size : Int) ≤ t.bead - 1 ∧ t.unitTesting = false)
    rintro ⟨h1, h2, h3⟩
    rcases hnocut with h | h <;> omega

/-- The observable facts about the `finally` block of `redo`. -/
theorem finallyRedo_facts (t : UndoState) (sBeads : List Bead) (sBead : Int)
    (m : Nat) (ut : Bool)
    (hpb : t.beads = sBeads) (hpn : t.bead = sBead)
    (hpm : t.max_undo_stack_size = m) (hpu : t.unitTesting = ut)
    (hnocut : m = 0 ∨ sBead + 1 < (m : Int)) :
    (setUndoTypes { t with redoing := false, bead := t.bead + 1 }).redoing = false
      ∧ (setUndoTypes { t with redoing := false, bead := t.bead + 1 }).bead
          = sBead + 1
      ∧ (setUndoTypes { t with redoing := false, bead := t.bead + 1 }).beads
          = sBeads
      ∧ labelsReflect (setUndoTypes { t with redoing := false, bead := t.bead + 1 }) := by
  subst hpb hpn hpm hpu
  have hfcut : cutStackFields t.beads (t.bead + 1) t.max_undo_stack_size
      t.unitTesting = (t.beads, t.bead + 1) :=
    cutStackFields_of_nocut _ _ _ _ hnocut
  refine ⟨?_, ?_, ?_, ?_⟩
  · rw [setUndoTypes_redoing]
  · have hb : (setUndoTypes { t with redoing := false, bead := t.bead + 1 }).bead
        = (cutStackFields t.beads (t.bead + 1) t.max_undo_stack_size
            t.unitTesting).2 := (setUndoTypes_fields _).2
    rw [hb, hfcut]
  · have hb : (setUndoTypes { t with redoing := false, bead := t.bead + 1 }).beads
        = (cutStackFields t.beads (t.bead + 1) t.max_undo_stack_size
            t.unitTesting).1 := (setUndoTypes_fields _).1
    rw [hb, hfcut]
  · apply labelsReflect_setUndoTypes_of_nocut
    show ¬(0 < t.max_undo_stack_size
        ∧ (t.max_undo_stack_size : Int) ≤ t.bead + 1 ∧ t.unitTesting = false)
    rintro ⟨h1, h2, h3⟩
    rcases hnocut with h | h <;> omega

/-- C5 counterexample: `beforeChangeGroup` pushes a bead (the stack grows and
the cursor advances) yet never calls `setUndoTypes`, so right after this push
the undo menu label still reads "Can't Undo" even though `beads[bead]` is the
freshly pushed bead with `undoType = "Replace All"`; the labels do not
reflect `beads[bead]` as the claim requires of every push. -/
theorem beforeChangeGroup_push_stale_labels :
    (beforeChangeGroup initialState "Replace All").beads.length = 1
      ∧ (beforeChangeGroup initialState "Replace All").bead = 0
      ∧ (beforeChangeGroup initialState "Replace All").undoMenuLabel
          = "Can't Undo"
      ∧ undoLabelOf (beforeChangeGroup initialState "Replace All").beads
          (beforeChangeGroup initialState "Replace All").bead
          = "Undo Replace All"
      ∧ ¬labelsReflect (beforeChangeGroup initialState "Replace All") :=
  ⟨by decide, by decide, by decide, by decide,
   fun h => absurd h.1 (by decide)⟩

/-- C5 (amended): the labels `undoMenuLabel` / `redoMenuLabel` reflect the
`undoType` of `beads[bead]` / `beads[bead+1]` ("Can't Undo" / "Can't Redo"
when absent) after every push through `pushBead`'s stack-extending path —
truncation included — and after every undo and redo whose helper leaves the
stack, cursor and configuration alone and whose final cursor is below the
truncation bound (as it always is when `len(beads)` does not exceed the
bound).  `beforeChangeGroup` and `beforeSort`, which push their bead
directly, do not recompute the labels. -/
theorem labels_recomputed :
    (∀ (s : UndoState) (bunch : Bead),
      (∀ b ∈ s.beads, ¬b.kind = some "beforeGroup") →
      ¬bunch.kind = some "beforeGroup" →
      -1 ≤ s.bead → s.bead < (s.beads.length : Int) →
      labelsReflect (pushBead s bunch))
  ∧ (∀ (helper : UndoState → UndoState × Bool) (s : UndoState) (b : Bead),
      canUndo s = true → getBead s s.bead = some b →
      (helper { s with undoing := true }).1.beads = s.beads →
      (helper { s with undoing := true }).1.bead = s.bead →
      (helper { s with undoing := true }).1.max_undo_stack_size
        = s.max_undo_stack_size →
      (helper { s with undoing := true }).1.unitTesting = s.unitTesting →
      (s.max_undo_stack_size = 0
        ∨ s.bead - 1 < (s.max_undo_stack_size : Int)) →
      labelsReflect (undoRun helper true s).1)
  ∧ (∀ (helper : UndoState → UndoState × Bool) (s : UndoState) (b : Bead),
      canRedo s = true → getBead s (s.bead + 1) = some b →
      (helper { s with redoing := true }).1.beads = s.beads →
      (helper { s with redoing := true }).1.bead = s.bead →
      (helper { s with redoing := true }).1.max_undo_stack_size
        = s.max_undo_stack_size →
      (helper { s with redoing := true }).1.unitTesting = s.unitTesting →
      (s.max_undo_stack_size = 0
        ∨ s.bead + 1 < (s.max_undo_stack_size : Int)) →
      labelsReflect (redoRun helper true s).1) := by
  refine ⟨?_, ?_, ?_⟩
  · intro s bunch hng hbg hlo hhi
    rw [pushBead_top s bunch (fun b2 hb2 => hng b2 (pyGet_mem hb2))]
    apply labelsReflect_setUndoTypes_of_top
    show s.bead + 1 = ((pyTake s.beads (s.bead + 1) ++ [bunch]).length : Int) - 1
    rw [pyTake_nonneg _ _ (by omega), List.length_append, List.length_take]
    simp
    omega
  · intro helper s b hcu hgb hpb hpn hpm hpu hnocut
    rw [undoRun_run helper s b hcu hgb]
    exact (finallyUndo_facts _ s.beads s.bead s.max_undo_stack_size
      s.unitTesting hpb hpn hpm hpu hnocut).2.2.2
  · intro helper s b hcr hgb hpb hpn hpm hpu hnocut
    rw [redoRun_run helper s b hcr hgb]
    exact (finallyRedo_facts _ s.beads s.bead s.max_undo_stack_size
      s.unitTesting hpb hpn hpm hpu hnocut).2.2.2

/-- C5 witness: the labels reflect the stack after a truncating push onto a
full bounded stack, after an undo from `fullState`, and after a redo from
`midState`. -/
theorem labels_recomputed_witness :
    labelsReflect (pushBead fullState (nodeBead "D"))
      ∧ labelsReflect (undoRun raisingHelper true fullState).1
      ∧ labelsReflect (redoRun raisingHelper true midState).1 :=
  ⟨labels_recomputed.1 fullState (nodeBead "D") (by decide) (by decide)
      (by decide) (by decide),
   labels_recomputed.2.1 raisingHelper fullState (nodeBead "C") (by decide)
      (by decide) rfl rfl rfl rfl (by decide),
   labels_recomputed.2.2 raisingHelper midState (nodeBead "B") (by decide)
      (by decide) rfl rfl rfl rfl (by decide)⟩

/-- C6: if the bead's helper raises during `undo` (resp. `redo`) — modelled
by the helper returning `true` in its second component, which `undo`/`redo`
propagate — the `undoing` (resp. `redoing`) flag is still cleared, the cursor
is still decremented (resp. incremented) by exactly one, and the menu labels
are still recomputed to reflect the stack, because these steps run in the
`finally` block; stated for helpers that leave the stack, cursor and
configuration alone, with the final cursor below the truncation bound. -/
theorem replay_finally_on_raise :
    (∀ (helper : UndoState → UndoState × Bool) (s : UndoState) (b : Bead),
      canUndo s = true → getBead s s.bead = some b →
      (helper { s with undoing := true }).2 = true →
      (helper { s with undoing := true }).1.beads = s.beads →
      (helper { s with undoing := true }).1.bead = s.bead →
      (helper { s with undoing := true }).1.max_undo_stack_size
        = s.max_undo_stack_size →
      (helper { s with undoing := true }).1.unitTesting = s.unitTesting →
      (s.max_undo_stack_size = 0
        ∨ s.bead - 1 < (s.max_undo_stack_size : Int)) →
      (undoRun helper true s).2 = true
        ∧ (undoRun helper true s).1.undoing = false
        ∧ (undoRun helper true s).1.bead = s.bead - 1
        ∧ labelsReflect (undoRun helper true s).1)
  ∧ (∀ (helper : UndoState → UndoState × Bool) (s : UndoState) (b : Bead),
      canRedo s = true → getBead s (s.bead + 1) = some b →
      (helper { s with redoing := true }).2 = true →
      (helper { s with redoing := true }).1.beads = s.beads →
      (helper { s with redoing := true }).1.bead = s.bead →
      (helper { s with redoing := true }).1.max_undo_stack_size
        = s.max_undo_stack_size →
      (helper { s with redoing := true }).1.unitTesting = s.unitTesting →
      (s.max_undo_stack_size = 0
        ∨ s.bead + 1 < (s.max_undo_stack_size : Int)) →
      (redoRun helper true s).2 = true
        ∧ (redoRun helper true s).1.redoing = false
        ∧ (redoRun helper true s).1.bead = s.bead + 1
        ∧ labelsReflect (redoRun helper true s).1) := by
  constructor
  · intro helper s b hcu hgb hraise hpb hpn hpm hpu hnocut
    rw [undoRun_run helper s b hcu hgb]
    have hf := finallyUndo_facts (helper { s with undoing := true }).1 s.beads
      s.bead s.max_undo_stack_size s.unitTesting hpb hpn hpm hpu hnocut
    exact ⟨hraise, hf.1, hf.2.1, hf.2.2.2⟩
  · intro helper s b hcr hgb hraise hpb hpn hpm hpu hnocut
    rw [redoRun_run helper s b hcr hgb]
    have hf := finallyRedo_facts (helper { s with redoing := true }).1 s.beads
      s.bead s.max_undo_stack_size s.unitTesting hpb hpn hpm hpu hnocut
    exact ⟨hraise, hf.1, hf.2.1, hf.2.2.2⟩

/-- C1 counterexample: with the `undoing` flag set, `beforeChangeGroup`,
`beforeSort`, `afterPromote`, `afterDemote` and `afterClearRecentFiles` all
still push a bead — the bead stack grows during replay, so not every
`before*`/`after*` entry returns immediately when a flag is set. -/
theorem unguarded_entries_record_during_replay :
    replayingState.undoing = true
      ∧ replayingState.beads.length = 0
      ∧ (beforeChangeGroup replayingState "Indent").beads.length = 1
      ∧ (beforeSort replayingState "Sort Siblings").beads.length = 1
      ∧ (afterPromote replayingState).beads.length = 1
      ∧ (afterDemote replayingState).beads.length = 1
      ∧ (afterClearRecentFiles replayingState (Bead.mk {} [])).beads.length
          = 1 := by
  refine ⟨rfl, rfl, by decide, by decide, by decide, by decide, by decide⟩

/-- C1 (amended): when either replay flag is set, every `after*` entry
except `afterPromote`, `afterDemote` and `afterClearRecentFiles`, plus
`setUndoTypingParams`, returns immediately with the state untouched and
records nothing — proved below for all twelve guarded entries
(`afterChangeGroup`, `afterChangeNodeContents`, `afterChangeTree`,
`afterCloneNode`, `afterDehoist`, `afterDeleteNode`, `afterHoist`,
`afterInsertNode`, `afterMark`, `afterMoveNode`, `afterSort`,
`setUndoTypingParams`); `beforeChangeGroup`, `beforeSort`, `afterPromote`,
`afterDemote` and `afterClearRecentFiles` have no such guard and record even
during replay, while the remaining `before*` entries only build and return a
bunch and never touch the bead stack. -/
theorem guarded_entries_noop_during_replay :
    ∀ (s : UndoState), s.undoing = true ∨ s.redoing = true →
      (∀ t, afterChangeGroup s t = s)
      ∧ (∀ cmd bunch, afterChangeNodeContents s cmd bunch = s)
      ∧ (∀ cmd bunch, afterChangeTree s cmd bunch = s)
      ∧ (∀ cmd bunch, afterCloneNode s cmd bunch = s)
      ∧ (∀ cmd, afterDehoist s cmd = s)
      ∧ (∀ cmd bunch, afterDeleteNode s cmd bunch = s)
      ∧ (∀ cmd, afterHoist s cmd = s)
      ∧ (∀ cmd bunch, afterInsertNode s cmd bunch = s)
      ∧ (∀ bunch, afterMark s bunch = s)
      ∧ (∀ cmd bunch, afterMoveNode s cmd bunch = s)
      ∧ afterSort s = s
      ∧ (∀ (recog : Recog) (pv : Nat) (ut : Option String)
            (oT nT : String) (oS nS : Sel),
          setUndoTypingParams s recog pv ut oT nT oS nS = (s, none)) := by
  intro s h
  refine ⟨?_, ?_, ?_, ?_, ?_, ?_, ?_, ?_, ?_, ?_, ?_, ?_⟩
  · intro t
    rcases h with h | h <;> simp [afterChangeGroup, h]
  · intro cmd bunch
    rcases h with h | h <;> simp [afterChangeNodeContents, h]
  · intro cmd bunch
    rcases h with h | h <;> simp [afterChangeTree, h]
  · intro cmd bunch
    rcases h with h | h <;> simp [afterCloneNode, h]
  · intro cmd
    rcases h with h | h <;> simp [afterDehoist, h]
  · intro cmd bunch
    rcases h with h | h <;> simp [afterDeleteNode, h]
  · intro cmd
    rcases h with h | h <;> simp [afterHoist, h]
  · intro cmd bunch
    rcases h with h | h <;> simp [afterInsertNode, h]
  · intro bunch
    rcases h with h | h <;> simp [afterMark, h]
  · intro cmd bunch
    rcases h with h | h <;> simp [afterMoveNode, h]
  · rcases h with h | h <;> simp [afterSort, h]
  · intro recog pv ut oT nT oS nS
    rcases h with h | h <;> simp [setUndoTypingParams, h]

/-- C1 witness: all twelve guarded entries leave a replaying state
untouched. -/
theorem guarded_entries_noop_during_replay_witness :
    afterChangeGroup replayingState "Change All" = replayingState
      ∧ afterChangeNodeContents replayingState "Typing" (nodeBead "A")
          = replayingState
      ∧ afterChangeTree replayingState "Replace" (nodeBead "A")
          = replayingState
      ∧ afterCloneNode replayingState "Clone Node" (nodeBead "A")
          = replayingState
      ∧ afterDehoist replayingState "De-Hoist" = replayingState
      ∧ afterDeleteNode replayingState "Delete Node" (nodeBead "A")
          = replayingState
      ∧ afterHoist replayingState "Hoist" = replayingState
      ∧ afterInsertNode replayingState "Insert Node" (nodeBead "A")
          = replayingState
      ∧ afterMark replayingState (nodeBead "A") = replayingState
      ∧ afterMoveNode replayingState "Move Node" (nodeBead "A")
          = replayingState
      ∧ afterSort replayingState = replayingState
      ∧ setUndoTypingParams replayingState recognizeStartOfTypingWord 1
          (some "Typing") "a" "b" ((1, 0), (1, 0)) ((1, 1), (1, 1))
          = (replayingState, none) := by
  obtain ⟨h1, h2, h3, h4, h5, h6, h7, h8, h9, h10, h11, h12⟩ :=
    guarded_entries_noop_during_replay replayingState (Or.inl rfl)
  exact ⟨h1 "Change All", h2 "Typing" (nodeBead "A"),
    h3 "Replace" (nodeBead "A"), h4 "Clone Node" (nodeBead "A"),
    h5 "De-Hoist", h6 "Delete Node" (nodeBead "A"), h7 "Hoist",
    h8 "Insert Node" (nodeBead "A"), h9 (nodeBead "A"),
    h10 "Move Node" (nodeBead "A"), h11,
    h12 recognizeStartOfTypingWord 1 (some "Typing") "a" "b"
      ((1, 0), (1, 0)) ((1, 1), (1, 1))⟩

/-- C10: `getBead(n)` and `peekBead(n)` return `None` for every out-of-range
`n` (negative or at least `len(beads)`), and `undo` (resp. `redo`) returns
with the stack, cursor, flags and labels unchanged when the bead lookup at
`bead` (resp. `bead + 1`) fails. -/
theorem bead_lookup_safe :
    (∀ (s : UndoState) (n : Int), (n < 0 ∨ (s.beads.length : Int) ≤ n) →
        getBead s n = none ∧ peekBead s n = none)
  ∧ (∀ (helper : UndoState → UndoState × Bool) (hcp : Bool) (s : UndoState),
        getBead s s.bead = none → undoRun helper hcp s = (s, false))
  ∧ (∀ (helper : UndoState → UndoState × Bool) (hcp : Bool) (s : UndoState),
        getBead s (s.bead + 1) = none → redoRun helper hcp s = (s, false)) := by
  refine ⟨?_, ?_, ?_⟩
  · intro s n h
    constructor
    · unfold getBead
      rw [if_pos h]
    · unfold peekBead
      rw [if_pos h]
  · intro helper hcp s h
    simp only [undoRun]
    rw [h]
    by_cases hcu : canUndo s = false
    · rw [if_pos hcu]
    · rw [if_neg hcu]
  · intro helper hcp s h
    simp only [redoRun]
    rw [h]
    by_cases hcr : canRedo s = false
    · rw [if_pos hcr]
    · rw [if_neg hcr]

/-- C10 witness: lookups at −1 and at the length are `None`, and `undo` /
`redo` on states whose lookup fails return them unchanged. -/
theorem bead_lookup_safe_witness :
    (getBead initialState (-1) = none ∧ peekBead initialState (-1) = none)
      ∧ (getBead oneBeadState (0 + 1) = none
          ∧ peekBead oneBeadState (0 + 1) = none)
      ∧ undoRun raisingHelper true initialState = (initialState, false)
      ∧ redoRun raisingHelper true oneBeadState = (oneBeadState, false) :=
  ⟨bead_lookup_safe.1 initialState (-1) (by decide),
   bead_lookup_safe.1 oneBeadState (0 + 1) (by decide),
   bead_lookup_safe.2.1 raisingHelper true initialState (by decide),
   bead_lookup_safe.2.2 raisingHelper true oneBeadState (by decide)⟩

theorem clearUndoState_fields (s : UndoState) :
    (clearUndoState s).beads = []
      ∧ (clearUndoState s).bead = -1
      ∧ (clearUndoState s).undoMenuLabel = "Can't Undo"
      ∧ (clearUndoState s).redoMenuLabel = "Can't Redo"
      ∧ (clearUndoState s).max_undo_stack_size = s.max_undo_stack_size
      ∧ (clearUndoState s).unitTesting = s.unitTesting := by
  simp only [clearUndoState]
  rw [setUndoType_eq, setRedoType_eq]
  simp [undoMenuName, redoMenuName]

/-- C8: calling `setUndoTypingParams` with `undo_type = "Can't Undo"` while
not replaying discards the entire undo history: `beads` becomes empty, the
cursor becomes −1, the menu labels are reset to "Can't Undo" / "Can't Redo",
and the call returns `None` without pushing any bead. -/
theorem setUndoTypingParams_cant_undo (s : UndoState) (recog : Recog)
    (pv : Nat) (oldText newText : String) (oldSel newSel : Sel)
    (hu : s.undoing = false) (hr : s.redoing = false) :
    (setUndoTypingParams s recog pv (some "Can't Undo")
        oldText newText oldSel newSel).1.beads = []
      ∧ (setUndoTypingParams s recog pv (some "Can't Undo")
          oldText newText oldSel newSel).1.bead = -1
      ∧ (setUndoTypingParams s recog pv (some "Can't Undo")
          oldText newText oldSel newSel).1.undoMenuLabel = "Can't Undo"
      ∧ (setUndoTypingParams s recog pv (some "Can't Undo")
          oldText newText oldSel newSel).1.redoMenuLabel = "Can't Redo"
      ∧ (setUndoTypingParams s recog pv (some "Can't Undo")
          oldText newText oldSel newSel).2 = none := by
  have hred : setUndoTypingParams s recog pv (some "Can't Undo")
      oldText newText oldSel newSel
      = (setUndoTypes (clearUndoState s), none) := by
    simp [setUndoTypingParams, hu, hr]
  rw [hred]
  obtain ⟨hb, hn, hul, hrl, hm, hut⟩ := clearUndoState_fields s
  have hcf : cutStackFields (clearUndoState s).beads (clearUndoState s).bead
      (clearUndoState s).max_undo_stack_size (clearUndoState s).unitTesting
      = ([], -1) := by
    rw [hb, hn]
    exact cutStackFields_of_nocut _ _ _ _ (Or.inr (by omega))
  have hfields := setUndoTypes_fields (clearUndoState s)
  have hbeads : (setUndoTypes (clearUndoState s)).beads = [] := by
    rw [hfields.1, hcf]
  have hbead : (setUndoTypes (clearUndoState s)).bead = -1 := by
    rw [hfields.2, hcf]
  have hlab := labelsReflect_setUndoTypes_of_nocut (clearUndoState s) (by
    rw [hn]
    rintro ⟨h1, h2, -⟩
    omega)
  refine ⟨hbeads, hbead, ?_, ?_, rfl⟩
  · rw [hlab.1, hbeads, hbead]
    decide
  · rw [hlab.2, hbeads, hbead]
    decide

/-- C8 witness: clearing the history from a populated, bounded stack. -/
theorem setUndoTypingParams_cant_undo_witness :
    (setUndoTypingParams fullState recognizeStartOfTypingWord 7
        (some "Can't Undo") "old" "new" ((1, 0), (1, 0))
        ((1, 1), (1, 1))).1.beads = []
      ∧ (setUndoTypingParams fullState recognizeStartOfTypingWord 7
          (some "Can't Undo") "old" "new" ((1, 0), (1, 0))
          ((1, 1), (1, 1))).1.bead = -1
      ∧ (setUndoTypingParams fullState recognizeStartOfTypingWord 7
          (some "Can't Undo") "old" "new" ((1, 0), (1, 0))
          ((1, 1), (1, 1))).1.undoMenuLabel = "Can't Undo"
      ∧ (setUndoTypingParams fullState recognizeStartOfTypingWord 7
          (some "Can't Undo") "old" "new" ((1, 0), (1, 0))
          ((1, 1), (1, 1))).1.redoMenuLabel = "Can't Redo"
      ∧ (setUndoTypingParams fullState recognizeStartOfTypingWord 7
          (some "Can't Undo") "old" "new" ((1, 0), (1, 0))
          ((1, 1), (1, 1))).2 = none :=
  setUndoTypingParams_cant_undo fullState recognizeStartOfTypingWord 7
    "old" "new" ((1, 0), (1, 0)) ((1, 1), (1, 1)) rfl rfl

theorem undoRedoText_eq_spec (body : String) (leading trailing : Nat)
    (mid : List String) (nls : Nat) :
    undoRedoText body leading trailing mid nls
      = undoRedoTextSpec body leading trailing mid nls := by
  have h1 : ∀ (l : List String),
      (if leading > 0 then l.take leading else []) = l.take leading := by
    intro l; rcases Nat.eq_zero_or_pos leading with h | h
    · subst h; simp
    · simp [h]
  have h2 : (if mid.length > 0 then mid else []) = mid := by
    cases mid <;> simp
  have h3 : ∀ (l : List String),
      (if trailing > 0 then pyDrop l (-(trailing : Int)) else [])
        = l.drop (l.length - trailing) := by
    intro l; rcases Nat.eq_zero_or_pos trailing with h | h
    · subst h; simp
    · rw [if_pos h]
      unfold pyDrop pyNorm
      rw [if_pos (by omega)]
      congr 1
      omega
  have h4 : ∀ (s : String),
      (if nls > 0 then s ++ String.mk (List.replicate nls '\n') else s)
        = s ++ String.mk (List.replicate nls '\n') := by
    intro s; rcases Nat.eq_zero_or_pos nls with h | h
    · subst h; simp [String.ext_iff]
    · simp [h]
  simp only [undoRedoText, undoRedoTextSpec]
  rw [h1, h2, h3, h4]

/-- C4: undoing (resp. redoing) a typing bead rewrites the body exactly as
the specification's formula: split the current body on `'\n'`, take the first
`leading` lines, then the stored old (resp. new) middle lines, then the last
`trailing` lines of the current body; join with `'\n'`; strip all trailing
newlines; then append exactly `oldNewlines` (resp. `newNewlines`) newline
characters. -/
theorem typing_rewrite_spec (d : BeadCore) (body : String) :
    undoTypingBody d body
        = undoRedoTextSpec body d.leading d.trailing d.oldMiddleLines
            d.oldNewlines
      ∧ redoTypingBody d body
        = undoRedoTextSpec body d.leading d.trailing d.newMiddleLines
            d.newNewlines :=
  ⟨undoRedoText_eq_spec body d.leading d.trailing d.oldMiddleLines
      d.oldNewlines,
   undoRedoText_eq_spec body d.leading d.trailing d.newMiddleLines
      d.newNewlines⟩

theorem set_concat (l : List α) (a b : α) :
    (l ++ [a]).set l.length b = l ++ [b] := by
  induction l with
  | nil => rfl
  | cons x xs ih =>
    show x :: ((xs ++ [a]).set xs.length b) = x :: (xs ++ [b])
    rw [ih]

theorem pySet_concat (l : List α) (i : Int) (hi : i = (l.length : Int))
    (a b : α) : pySet (l ++ [a]) i b = l ++ [b] := by
  subst hi
  unfold pySet
  rw [if_neg (by omega)]
  rw [show ((l.length : Int)).toNat = l.length from by omega]
  exact set_concat l a b

theorem pyGet_concat (l : List α) (i : Int) (hi : i = (l.length : Int))
    (a : α) : pyGet (l ++ [a]) i = some a := by
  subst hi
  rw [pyGet_nonneg _ _ (by omega),
    show ((l.length : Int)).toNat = l.length from by omega]
  exact List.get?_concat_length _ _

/-- Pushing while the stack ends in an open group at the cursor: the bunch
goes into the group's `items`. -/
theorem pushBead_group_concat (l : List Bead) (gcore : BeadCore)
    (gitems : List Bead) (bunch : Bead) (s : UndoState)
    (hbeads : s.beads = l ++ [Bead.mk gcore gitems])
    (hbead : s.bead = (l.length : Int))
    (hk : gcore.kind = some "beforeGroup") :
    pushBead s bunch
      = { s with beads := l ++ [Bead.mk gcore (gitems ++ [bunch])] } := by
  have h0 : 0 ≤ s.bead := by rw [hbead]; omega
  have hlen : (l ++ [Bead.mk gcore gitems]).length = l.length + 1 := by simp
  have h1 : s.bead < (s.beads.length : Int) := by
    rw [hbead, hbeads, hlen]
    push_cast
    omega
  have hg : pyGet s.beads s.bead = some (Bead.mk gcore gitems) := by
    rw [hbeads, hbead]
    exact pyGet_concat _ _ rfl _
  rw [pushBead_group s bunch _ h0 h1 hg hk]
  have hset : pySet s.beads s.bead
      (Bead.mk (Bead.mk gcore gitems).core
        ((Bead.mk gcore gitems).items ++ [bunch]))
      = l ++ [Bead.mk gcore (gitems ++ [bunch])] := by
    rw [hbeads, hbead]
    exact pySet_concat _ _ rfl _ _
  rw [hset]

/-- Closing the group at the top of the stack: `afterChangeGroup` rewrites
the group bead in place and recomputes the labels. -/
theorem afterChangeGroup_concat (l : List Bead) (gcore : BeadCore)
    (gitems : List Bead) (t : String) (s : UndoState)
    (hu : s.undoing = false) (hrd : s.redoing = false)
    (hbeads : s.beads = l ++ [Bead.mk gcore gitems])
    (hbead : s.bead = (l.length : Int)) :
    afterChangeGroup s t = setUndoTypes { s with
      beads := l ++ [Bead.mk
        { gcore with kind := some "afterGroup", undoType := t } gitems] } := by
  simp only [afterChangeGroup]
  rw [if_neg (by simp [hu, hrd])]
  have hg : pyGet s.beads s.bead = some (Bead.mk gcore gitems) := by
    rw [hbeads, hbead]
    exact pyGet_concat _ _ rfl _
  simp only [hg]
  have hset : pySet s.beads s.bead
      (Bead.mk { (Bead.mk gcore gitems).core with
        kind := some "afterGroup", undoType := t } (Bead.mk gcore gitems).items)
      = l ++ [Bead.mk { gcore with kind := some "afterGroup", undoType := t }
          gitems] := by
    rw [hbeads, hbead]
    exact pySet_concat _ _ rfl _ _
  rw [hset]

/-- C3: (1) if `beads[bead]` is an open `beforeGroup` bead, `pushBead`
appends the new bead to its `items` and leaves the stack length, the cursor
and both menu labels unchanged; (2) consequently an open-group / two node
edits / close-group sequence grows `len(beads)` by exactly one, and
`afterChangeGroup` flips the existing bead's kind to `afterGroup` in place —
the final `beads[bead]` is the same single bead, now of kind `afterGroup`,
holding the two edits in its `items` — without pushing a second bead. -/
theorem group_accumulation :
    (∀ (s : UndoState) (bunch b2 : Bead),
      0 ≤ s.bead → s.bead < (s.beads.length : Int) →
      pyGet s.beads s.bead = some b2 → b2.kind = some "beforeGroup" →
      (pushBead s bunch).beads
          = pySet s.beads s.bead (Bead.mk b2.core (b2.items ++ [bunch]))
        ∧ (pushBead s bunch).beads.length = s.beads.length
        ∧ (pushBead s bunch).bead = s.bead
        ∧ (pushBead s bunch).undoMenuLabel = s.undoMenuLabel
        ∧ (pushBead s bunch).redoMenuLabel = s.redoMenuLabel)
  ∧ (∀ (s0 : UndoState) (cmd t c1 c2 : String) (b1 b2 : Bead),
      s0.undoing = false → s0.redoing = false →
      s0.bead = (s0.beads.length : Int) - 1 →
      (s0.max_undo_stack_size = 0
        ∨ s0.bead + 1 < (s0.max_undo_stack_size : Int)) →
      (afterChangeGroup
          (afterChangeNodeContents
            (afterChangeNodeContents (beforeChangeGroup s0 cmd) c1 b1)
            c2 b2) t).beads.length = s0.beads.length + 1
        ∧ (afterChangeGroup
            (afterChangeNodeContents
              (afterChangeNodeContents (beforeChangeGroup s0 cmd) c1 b1)
              c2 b2) t).bead = s0.bead + 1
        ∧ beadAt (afterChangeGroup
              (afterChangeNodeContents
                (afterChangeNodeContents (beforeChangeGroup s0 cmd) c1 b1)
                c2 b2) t).beads
            (afterChangeGroup
              (afterChangeNodeContents
                (afterChangeNodeContents (beforeChangeGroup s0 cmd) c1 b1)
                c2 b2) t).bead
          = some (Bead.mk { kind := some "afterGroup", undoType := t }
              [Bead.mk { b1.core with kind := some "node", undoType := c1 }
                  b1.items,
               Bead.mk { b2.core with kind := some "node", undoType := c2 }
                  b2.items])) := by
  constructor
  · intro s bunch b2 h0 h1 hg hk
    rw [pushBead_group s bunch b2 h0 h1 hg hk]
    refine ⟨rfl, ?_, rfl, rfl, rfl⟩
    show (pySet s.beads s.bead _).length = s.beads.length
    unfold pySet
    rw [if_neg (by omega)]
    exact List.length_set _ _ _
  · intro s0 cmd t c1 c2 b1 b2 hu hrd htop hn
    have h0 : 0 ≤ s0.bead + 1 := by omega
    have htn : (s0.bead + 1).toNat = s0.beads.length := by omega
    have hA : beforeChangeGroup s0 cmd
        = { s0 with
            bead := s0.bead + 1,
            beads := s0.beads
              ++ [Bead.mk { kind := some "beforeGroup", undoType := cmd } []] } := by
      simp only [beforeChangeGroup]
      rw [pyTake_nonneg _ _ h0, htn, List.take_length]
    have hB : afterChangeNodeContents (beforeChangeGroup s0 cmd) c1 b1
        = { s0 with
            bead := s0.bead + 1,
            beads := s0.beads
              ++ [Bead.mk { kind := some "beforeGroup", undoType := cmd }
                  [Bead.mk { b1.core with kind := some "node", undoType := c1 }
                    b1.items]] } := by
      rw [hA]
      simp only [afterChangeNodeContents]
      rw [if_neg (by simp [hu, hrd])]
      rw [pushBead_group_concat s0.beads
        { kind := some "beforeGroup", undoType := cmd } []
        (Bead.mk { b1.core with kind := some "node", undoType := c1 } b1.items)
        _ rfl (show s0.bead + 1 = (s0.beads.length : Int) by omega) rfl]
      exact rfl
    have hC : afterChangeNodeContents
          (afterChangeNodeContents (beforeChangeGroup s0 cmd) c1 b1) c2 b2
        = { s0 with
            bead := s0.bead + 1,
            beads := s0.beads
              ++ [Bead.mk { kind := some "beforeGroup", undoType := cmd }
                  [Bead.mk { b1.core with kind := some "node", undoType := c1 }
                    b1.items,
                   Bead.mk { b2.core with kind := some "node", undoType := c2 }
                    b2.items]] } := by
      rw [hB]
      simp only [afterChangeNodeContents]
      rw [if_neg (by simp [hu, hrd])]
      rw [pushBead_group_concat s0.beads
        { kind := some "beforeGroup", undoType := cmd }
        [Bead.mk { b1.core with kind := some "node", undoType := c1 } b1.items]
        (Bead.mk { b2.core with kind := some "node", undoType := c2 } b2.items)
        _ rfl (show s0.bead + 1 = (s0.beads.length : Int) by omega) rfl]
      exact rfl
    have hD : afterChangeGroup
          (afterChangeNodeContents
            (afterChangeNodeContents (beforeChangeGroup s0 cmd) c1 b1)
            c2 b2) t
        = setUndoTypes { s0 with
            bead := s0.bead + 1,
            beads := s0.beads
              ++ [Bead.mk { kind := some "afterGroup", undoType := t }
                  [Bead.mk { b1.core with kind := some "node", undoType := c1 }
                    b1.items,
                   Bead.mk { b2.core with kind := some "node", undoType := c2 }
                    b2.items]] } := by
      rw [hC]
      rw [afterChangeGroup_concat s0.beads
        { kind := some "beforeGroup", undoType := cmd }
        [Bead.mk { b1.core with kind := some "node", undoType := c1 } b1.items,
         Bead.mk { b2.core with kind := some "node", undoType := c2 } b2.items]
        t _ (by exact hu) (by exact hrd) rfl
        (show s0.bead + 1 = (s0.beads.length : Int) by omega)]
    rw [hD]
    set gF : Bead := Bead.mk { kind := some "afterGroup", undoType := t }
        [Bead.mk { b1.core with kind := some "node", undoType := c1 } b1.items,
         Bead.mk { b2.core with kind := some "node", undoType := c2 } b2.items]
      with hgF
    have hcf : cutStackFields (s0.beads ++ [gF]) (s0.bead + 1)
        s0.max_undo_stack_size s0.unitTesting
        = (s0.beads ++ [gF], s0.bead + 1) :=
      cutStackFields_of_nocut _ _ _ _ hn
    have hcf1 : (cutStackFields (s0.beads ++ [gF]) (s0.bead + 1)
        s0.max_undo_stack_size s0.unitTesting).1 = s0.beads ++ [gF] := by
      rw [hcf]
    have hcf2 : (cutStackFields (s0.beads ++ [gF]) (s0.bead + 1)
        s0.max_undo_stack_size s0.unitTesting).2 = s0.bead + 1 := by
      rw [hcf]
    have hf1 : (setUndoTypes { s0 with
        bead := s0.bead + 1,
        beads := s0.beads ++ [gF] }).beads
        = (cutStackFields (s0.beads ++ [gF]) (s0.bead + 1)
            s0.max_undo_stack_size s0.unitTesting).1 :=
      (setUndoTypes_fields _).1
    have hf2 : (setUndoTypes { s0 with
        bead := s0.bead + 1,
        beads := s0.beads ++ [gF] }).bead
        = (cutStackFields (s0.beads ++ [gF]) (s0.bead + 1)
            s0.max_undo_stack_size s0.unitTesting).2 :=
      (setUndoTypes_fields _).2
    rw [hcf1] at hf1
    rw [hcf2] at hf2
    refine ⟨?_, ?_, ?_⟩
    · rw [hf1, List.length_append]
      rfl
    · exact hf2
    · rw [hf1, hf2, beadAt_of_range _ _ (by omega)
        (by
          have hlgf : (s0.beads ++ [gF]).length = s0.beads.length + 1 := by
            simp
          rw [hlgf]
          push_cast
          omega), htn]
      exact List.get?_concat_length _ _

/-- C3 witness: pushing into the open group of `groupOpenState` keeps the
stack length and cursor, and the open/edit/edit/close scenario from
`oneBeadState` grows the stack by exactly one. -/
theorem group_accumulation_witness :
    ((pushBead groupOpenState (nodeBead "E")).beads.length
          = groupOpenState.beads.length
        ∧ (pushBead groupOpenState (nodeBead "E")).bead = groupOpenState.bead)
      ∧ (afterChangeGroup
          (afterChangeNodeContents
            (afterChangeNodeContents
              (beforeChangeGroup oneBeadState "Replace All")
              "Change Body" (nodeBead "X"))
            "Change Headline" (nodeBead "Y")) "Replace All").beads.length
        = oneBeadState.beads.length + 1 :=
  ⟨⟨(group_accumulation.1 groupOpenState (nodeBead "E")
        (Bead.mk { kind := some "beforeGroup", undoType := "Replace All" } [])
        (by decide) (by decide) (by decide) (by decide)).2.1,
    (group_accumulation.1 groupOpenState (nodeBead "E")
        (Bead.mk { kind := some "beforeGroup", undoType := "Replace All" } [])
        (by decide) (by decide) (by decide) (by decide)).2.2.1⟩,
   (group_accumulation.2 oneBeadState "Replace All" "Replace All"
      "Change Body" "Change Headline" (nodeBead "X") (nodeBead "Y")
      rfl rfl (by decide) (Or.inl rfl)).1⟩

/-- C9: under `'word'` granularity, when the previous bead is a typing bead
on the same vnode with matching `leading` and `trailing` values, both
selections are collapsed, the old and new rows are equal with a column delta
of exactly 1, and the old or new column is 0 (a line break was just
inserted), the typing event extends the previous bead in place — same stack,
same cursor, the bead's new-side fields refreshed — and the outcome is the
same for every `recognizeStartOfTypingWord` predicate, i.e. the predicate is
not consulted. -/
theorem word_granularity_linebreak_extends (s : UndoState) (d : Bead)
    (pv : Nat) (oldText newText : String) (r c c' : Nat)
    (hu : s.undoing = false) (hrd : s.redoing = false)
    (hg : s.granularity = "word")
    (hne : ¬oldText = newText)
    (hpeek : peekBead s s.bead = some d)
    (hdpv : d.core.pv = pv)
    (hdk : d.kind = some "typing")
    (hdt : d.undoType = "Typing")
    (hdl : d.core.leading = (computeTypingInfo oldText newText).leading)
    (hdtr : d.core.trailing = (computeTypingInfo oldText newText).trailing)
    (hdelta : ((c : Int) - (c' : Int)).natAbs = 1)
    (hzero : c = 0 ∨ c' = 0) :
    ∀ (recog recog' : Recog),
      setUndoTypingParams s recog pv (some "Typing") oldText newText
          ((r, c), (r, c)) ((r, c'), (r, c'))
        = setUndoTypingParams s recog' pv (some "Typing") oldText newText
            ((r, c), (r, c)) ((r, c'), (r, c'))
      ∧ (setUndoTypingParams s recog pv (some "Typing") oldText newText
          ((r, c), (r, c)) ((r, c'), (r, c'))).1
        = { s with
            undoType := "Typing",
            beads := pySet s.beads s.bead (Bead.mk
              { d.core with
                  leading := (computeTypingInfo oldText newText).leading,
                  trailing := (computeTypingInfo oldText newText).trailing,
                  newNewlines := (computeTypingInfo oldText newText).newNewlines,
                  newMiddleLines :=
                    (computeTypingInfo oldText newText).newMiddleLines }
              d.items) } := by
  have hwc : ∀ recog : Recog,
      wordContinuationCheck ((r, c), (r, c)) ((r, c'), (r, c'))
        oldText newText recog = false := by
    intro recog
    simp only [wordContinuationCheck]
    rw [if_neg (by simp), if_neg (by simp [hdelta]), if_pos hzero]
  have hnbd : ∀ recog : Recog,
      newBeadDecision s.granularity (some d) pv "Typing"
        (computeTypingInfo oldText newText).leading
        (computeTypingInfo oldText newText).trailing
        ((r, c), (r, c)) ((r, c'), (r, c')) oldText newText recog = false := by
    intro recog
    rw [hg]
    simp only [newBeadDecision]
    rw [if_neg (by simp [hdpv, hdk, hdt])]
    rw [if_neg (by decide), if_neg (by decide)]
    have hnb : decide (¬d.core.leading
          = (computeTypingInfo oldText newText).leading
        ∨ ¬d.core.trailing = (computeTypingInfo oldText newText).trailing)
        = false := by
      simp [hdl, hdtr]
    rw [hnb]
    simp only [Bool.not_false, Bool.and_true]
    rw [if_pos (by decide)]
    exact hwc recog
  have hmain : ∀ rg : Recog,
      setUndoTypingParams s rg pv (some "Typing") oldText newText
          ((r, c), (r, c)) ((r, c'), (r, c'))
        = ({ s with
            undoType := "Typing",
            beads := pySet s.beads s.bead (Bead.mk
              { d.core with
                  leading := (computeTypingInfo oldText newText).leading,
                  trailing := (computeTypingInfo oldText newText).trailing,
                  newNewlines := (computeTypingInfo oldText newText).newNewlines,
                  newMiddleLines :=
                    (computeTypingInfo oldText newText).newMiddleLines }
              d.items) },
          some (Bead.mk
              { d.core with
                  leading := (computeTypingInfo oldText newText).leading,
                  trailing := (computeTypingInfo oldText newText).trailing,
                  newNewlines := (computeTypingInfo oldText newText).newNewlines,
                  newMiddleLines :=
                    (computeTypingInfo oldText newText).newMiddleLines }
              d.items)) := by
    intro rg
    simp only [setUndoTypingParams]
    rw [if_neg (by simp [hu, hrd]), if_neg (by decide), if_neg hne]
    have hpeek2 : peekBead { s with undoType := "Typing" }
        ({ s with undoType := "Typing" } : UndoState).bead = some d := hpeek
    rw [hpeek2]
    have hnbd2 : newBeadDecision
        ({ s with undoType := "Typing" } : UndoState).granularity (some d) pv
        "Typing" (computeTypingInfo oldText newText).leading
        (computeTypingInfo oldText newText).trailing
        ((r, c), (r, c)) ((r, c'), (r, c')) oldText newText rg = false :=
      hnbd rg
    rw [hnbd2]
    exact rfl
  intro recog recog'
  exact ⟨(hmain recog).trans (hmain recog').symm, by rw [hmain recog]⟩

/-- C9 witness: a line-break insertion at `wordState` (rows equal, column
delta 1, new column 0) extends `typingBead` identically under the default
predicate and under a predicate that always reports a boundary. -/
theorem word_granularity_linebreak_extends_witness :
    setUndoTypingParams wordState recognizeStartOfTypingWord 7 (some "Typing")
        "x" "y" ((1, 1), (1, 1)) ((1, 0), (1, 0))
      = setUndoTypingParams wordState alwaysSplit 7 (some "Typing")
          "x" "y" ((1, 1), (1, 1)) ((1, 0), (1, 0))
      ∧ (setUndoTypingParams wordState recognizeStartOfTypingWord 7
          (some "Typing") "x" "y" ((1, 1), (1, 1)) ((1, 0), (1, 0))).1
        = { wordState with
            undoType := "Typing",
            beads := pySet wordState.beads wordState.bead (Bead.mk
              { typingBead.core with
                  leading := (computeTypingInfo "x" "y").leading,
                  trailing := (computeTypingInfo "x" "y").trailing,
                  newNewlines := (computeTypingInfo "x" "y").newNewlines,
                  newMiddleLines := (computeTypingInfo "x" "y").newMiddleLines }
              typingBead.items) } :=
  word_granularity_linebreak_extends wordState typingBead 7 "x" "y" 1 1 0
    rfl rfl rfl (by decide) (by decide) rfl rfl rfl (by decide) (by decide)
    (by decide) (Or.inr rfl) recognizeStartOfTypingWord alwaysSplit

/-- C6 witness: a helper that raises still leaves the flag cleared, the
cursor moved by one, and the labels recomputed, for a concrete undo and a
concrete redo. -/
theorem replay_finally_on_raise_witness :
    ((undoRun raisingHelper true oneBeadState).2 = true
        ∧ (undoRun raisingHelper true oneBeadState).1.undoing = false
        ∧ (undoRun raisingHelper true oneBeadState).1.bead = (0 : Int) - 1
        ∧ labelsReflect (undoRun raisingHelper true oneBeadState).1)
      ∧ ((redoRun raisingHelper true midState).2 = true
        ∧ (redoRun raisingHelper true midState).1.redoing = false
        ∧ (redoRun raisingHelper true midState).1.bead = (0 : Int) + 1
        ∧ labelsReflect (redoRun raisingHelper true midState).1) :=
  ⟨replay_finally_on_raise.1 raisingHelper oneBeadState (nodeBead "A")
      (by decide) (by decide) rfl rfl rfl rfl rfl (by decide),
   replay_finally_on_raise.2 raisingHelper midState (nodeBead "B")
      (by decide) (by decide) rfl rfl rfl rfl rfl (by decide)⟩

end LeoUndo

namespace LeoPrinting

/-- C7 counterexample: on `cexCommander` — node A marked, node B selected and
unmarked — `preview_tree_html` renders B's body ("plain body"), not the
joined bodies of the marked nodes ("marked body"): it reads the selected
tree, refuting the claim that both commands read the marked nodes.
`print_tree_html` does read the marked nodes. -/
theorem preview_tree_html_not_marked :
    preview_tree_html_text cexCommander = "plain body"
      ∧ print_tree_html_text cexCommander = "marked body"
      ∧ markedBodiesText (allPositionsForest cexCommander.outline)
          = "marked body"
      ∧ ¬preview_tree_html_text cexCommander
          = markedBodiesText (allPositionsForest cexCommander.outline) := by
  refine ⟨?_, ?_, ?_, ?_⟩ <;> decide

/-- C7 (amended): `print_tree_html` builds its document text from the bodies
of the marked nodes of the whole outline (exactly the spec's marked-nodes
reading), while `preview_tree_html` builds its document text from
`getBodies`, the joined bodies of the selected position's
`self_and_subtree`, ignoring marks. -/
theorem tree_html_document_sources :
    (∀ c : Commander, print_tree_html_text c
        = markedBodiesText (allPositionsForest c.outline))
      ∧ (∀ c : Commander, preview_tree_html_text c = getBodies c.selected)
      ∧ (∀ c : Commander, preview_tree_html_text c
          = String.intercalate "\n" ((allPositionsTree c.selected).map VNode.b)) :=
  ⟨fun _ => rfl, fun _ => rfl, fun _ => rfl⟩

end LeoPrinting
